import Mathlib

/-!
Verification development for a transactional read-through cache with a
dependency-ordered write buffer (`StoreWithCache`).  The state is embedded
with insertion-ordered association lists, matching the JavaScript `Map` /
`Set` semantics of the source; calls issued to the underlying store are
recorded in an event trace.  The repository contains two parallel
implementations of the design; the first is embedded at top level and the
second in namespace `V2` where their behaviour is compared.
-/

/-- Association-list lookup, returning the value of the first matching key
(JS `Map.get`). -/
def alookup {κ α : Type} [DecidableEq κ] : List (κ × α) → κ → Option α
  | [], _ => none
  | (k, v) :: rest, key => if k = key then some v else alookup rest key

/-- Association-list update: replace the value in place if the key exists,
otherwise append at the end (JS `Map.set`, which preserves insertion order). -/
def aset {κ α : Type} [DecidableEq κ] : List (κ × α) → κ → α → List (κ × α)
  | [], k, v => [(k, v)]
  | (k', v') :: rest, k, v => if k' = k then (k, v) :: rest else (k', v') :: aset rest k v

/-- Association-list deletion of the first entry with the given key
(JS `Map.delete`; keys are unique in maps built through `aset`). -/
def adelete {κ α : Type} [DecidableEq κ] : List (κ × α) → κ → List (κ × α)
  | [], _ => []
  | (k', v') :: rest, k => if k' = k then rest else (k', v') :: adelete rest k

/-- Set insertion with JS `Set.add` semantics: append if not yet present. -/
def sadd (l : List String) (x : String) : List String :=
  if x ∈ l then l else l ++ [x]

/-- Set deletion with JS `Set.delete` semantics. -/
def sdelete (l : List String) (x : String) : List String :=
  l.filter (fun y => y ≠ x)

/-- Read an inner map of a two-level map, defaulting to empty
(the `getInsertList`/`getUpsertList`/`getCacheMap` read view). -/
def readL {α : Type} (m : List (String × List (String × α))) (name : String) :
    List (String × α) :=
  (alookup m name).getD []

/-- Entry lookup in a two-level map keyed by type name and id. -/
def lookup2 {α : Type} (m : List (String × List (String × α))) (name id : String) :
    Option α :=
  (alookup m name).bind (fun inner => alookup inner id)

/-- Entry update in a two-level map, creating the inner map if needed
(`getXList(name)` followed by `set`). -/
def set2 {α : Type} (m : List (String × List (String × α))) (name id : String) (v : α) :
    List (String × List (String × α)) :=
  aset m name (aset (readL m name) id v)

/-- Creation side effect of `getInsertList`/`getUpsertList`/`getCacheMap`/
`getDeferData`: an empty entry is added when the key is missing. -/
def ensure {α : Type} (m : List (String × α)) (name : String) (empty : α) :
    List (String × α) :=
  aset m name ((alookup m name).getD empty)

/-- A TypeORM `FindOptionsRelations` value: either a boolean flag or a
relation object, represented as its insertion-ordered entry list fused into
the inductive (`nil` is the empty object `\x7b\x7d`, `cons k v rest` the object
whose first key `k` maps to `v`). -/
inductive RelSpec : Type where
  | flag : Bool → RelSpec
  | nil : RelSpec
  | cons : String → RelSpec → RelSpec → RelSpec
deriving DecidableEq

/-- A relations object, the top-level shape of `FindOptionsRelations`
(always a `nil`/`cons` object). -/
abbrev RelObj : Type := RelSpec

/-- JS `typeof value === 'object'` on a relations value. -/
def isObjRel : RelSpec → Bool
  | .flag _ => false
  | _ => true

/-- JS truthiness of a relations value (`value || bValue`). -/
def relTruthy : RelSpec → Bool
  | .flag b => b
  | _ => true

/-- Key lookup in a relations object (`mergedObject[key]` read). -/
def relLookup : RelSpec → String → Option RelSpec
  | .cons k v rest, key => if k = key then some v else relLookup rest key
  | _, _ => none

/-- Key update in a relations object (`mergedObject[key] = v`): replace in
place, else append; objects keep key insertion order. -/
def relSet : RelSpec → String → RelSpec → RelSpec
  | .cons k' v' rest, k, v =>
      if k' = k then .cons k v rest else .cons k' v' (relSet rest k v)
  | .nil, k, v => .cons k v .nil
  | .flag _, k, v => .cons k v .nil

/-- Embedding of `mergeRelataions`: start from a copy of `a`, then for each
key of `b`, if `b`'s value is an object merge it recursively with an object
value of the accumulator (or take `b`'s object), otherwise keep a truthy
accumulator value and fall back to `b`'s value. -/
def mergeRelataions : RelSpec → RelSpec → RelSpec
  | a, .flag _ => a
  | a, .nil => a
  | a, .cons k bv rest =>
      let nv : RelSpec :=
        if isObjRel bv then
          match relLookup a k with
          | some av => if isObjRel av then mergeRelataions av bv else bv
          | none => bv
        else
          match relLookup a k with
          | some av => if relTruthy av then av else bv
          | none => bv
      mergeRelataions (relSet a k nv) rest

/-- An entity: a record with a constructor (type) name, a stable string id,
and scalar content. -/
structure Entity : Type where
  typeName : String
  id : String
  val : Nat
deriving DecidableEq

/-- Per-type deferred-load data: the set of ids awaiting resolution (insertion
ordered) and the accumulated relation path. -/
structure DeferData : Type where
  ids : List String
  relations : RelObj
deriving DecidableEq

/-- Calls issued to the underlying `Store`.  Bulk insert/upsert events record
which type's buffer was being drained. -/
inductive StoreEvent : Type where
  | insertCall : String → List Entity → StoreEvent
  | upsertCall : String → List Entity → StoreEvent
  | findCall : String → List String → RelObj → StoreEvent
  | findByCall : String → List String → StoreEvent
  | findOneCall : String → List String → RelObj → StoreEvent
  | findOneByCall : String → List String → StoreEvent
  | getCall : String → String → StoreEvent
  | countCall : String → StoreEvent
  | countByCall : String → List String → StoreEvent
deriving DecidableEq

/-- The first implementation's `StoreWithCache` state.  A cache entry value of
`none` is the explicit absent marker (`null`); a missing key means the id was
never looked at.  `events` is the chronological trace of store calls. -/
structure SState : Type where
  deferMap : List (String × DeferData)
  cacheMap : List (String × List (String × Option Entity))
  classes : List String
  insertMap : List (String × List (String × Entity))
  upsertMap : List (String × List (String × Entity))
  events : List StoreEvent
deriving DecidableEq

/-- The empty session state. -/
def initState : SState :=
  { deferMap := [], cacheMap := [], classes := [], insertMap := [], upsertMap := [],
    events := [] }

/-- The external database backing the store: rows keyed by type name and id. -/
def Db : Type := String → String → Option Nat

/-- The rows an `In(ids)` store query returns. -/
def storeFind (db : Db) (name : String) (ids : List String) : List Entity :=
  ids.filterMap (fun i => (db name i).map (fun v => ⟨name, i, v⟩))

/-- Embedding of the private `cache` method restricted to flat entities: the
entity value is written into its own constructor's cache map under its id. -/
def cacheEnt (e : Entity) (s : SState) : SState :=
  { s with cacheMap := set2 s.cacheMap e.typeName e.id (some e) }

/-- Caching of a list of store rows (`cache(res)`). -/
def cacheList (es : List Entity) (s : SState) : SState :=
  es.foldl (fun t e => cacheEnt e t) s

/-- Write-buffer map shape: per type name, an insertion-ordered map from id to
the buffered entity. -/
abbrev BufMap : Type := List (String × List (String × Entity))

/-- The store calls emitted while draining one type's buffers during `flush`:
a bulk insert when the insert buffer is non-empty, then a bulk upsert when the
upsert buffer is non-empty. -/
def callsFor (name : String) (im um : BufMap) : List StoreEvent :=
  (if readL im name = [] then []
   else [StoreEvent.insertCall name ((readL im name).map Prod.snd)]) ++
  (if readL um name = [] then []
   else [StoreEvent.upsertCall name ((readL um name).map Prod.snd)])

/-- The sequence of store calls a `flush` emits: types are walked in order,
both buffers of the visited type are drained and cleared, and iteration stops
right after the `stopAt` type when one is given. -/
def flushTrace : List String → BufMap → BufMap → Option String → List StoreEvent
  | [], _, _, _ => []
  | name :: rest, im, um, stopAt =>
      callsFor name im um ++
        (if stopAt = some name then []
         else flushTrace rest (aset im name []) (aset um name []) stopAt)

/-- Embedding of the `flush` loop body: for each name of the topological
order, the insert buffer is bulk-inserted and cleared, then the upsert buffer
is bulk-upserted and cleared, and the loop breaks after a matching
`entityClass` name. -/
def flushLoop : List String → Option String → SState → SState
  | [], _, s => s
  | name :: rest, stopAt, s =>
      let s1 : SState :=
        { s with insertMap := aset s.insertMap name [],
                 upsertMap := aset s.upsertMap name [],
                 events := s.events ++ callsFor name s.insertMap s.upsertMap }
      if stopAt = some name then s1 else flushLoop rest stopAt s1

/-- Embedding of `StoreWithCache.flush`: the memoized topological order is
passed as the `order` parameter, the optional `entityClass` argument as
`stopAt`. -/
def flush (order : List String) (stopAt : Option String) (s : SState) : SState :=
  flushLoop order stopAt s

/-- Embedding of `StoreWithCache.find` with an `In(ids)` where-filter: flush
up to the type, merge the passed relations with the type's accumulated
deferred relations, query the store and cache the rows. -/
def find (order : List String) (db : Db) (name : String) (ids : List String)
    (rels : Option RelObj) (s : SState) : List Entity × SState :=
  let s1 := flush order (some name) s
  let s2 : SState := { s1 with deferMap := ensure s1.deferMap name ⟨[], RelSpec.nil⟩ }
  let dRel := ((alookup s2.deferMap name).getD ⟨[], RelSpec.nil⟩).relations
  let merged :=
    match rels with
    | some r => mergeRelataions r dRel
    | none => dRel
  let res := storeFind db name ids
  let s3 : SState := { s2 with events := s2.events ++ [StoreEvent.findCall name ids merged] }
  (res, cacheList res s3)

/-- Embedding of `StoreWithCache.findBy` with an `In(ids)` condition. -/
def findBy (order : List String) (db : Db) (name : String) (ids : List String)
    (s : SState) : List Entity × SState :=
  let s1 := flush order (some name) s
  let res := storeFind db name ids
  let s2 : SState := { s1 with events := s1.events ++ [StoreEvent.findByCall name ids] }
  (res, cacheList res s2)

/-- Embedding of `StoreWithCache.findOne` with an `In(ids)` condition; the
store returns at most one row, and a found row is cached. -/
def findOne (order : List String) (db : Db) (name : String) (ids : List String)
    (rels : Option RelObj) (s : SState) : Option Entity × SState :=
  let s1 := flush order (some name) s
  let s2 : SState := { s1 with deferMap := ensure s1.deferMap name ⟨[], RelSpec.nil⟩ }
  let dRel := ((alookup s2.deferMap name).getD ⟨[], RelSpec.nil⟩).relations
  let merged :=
    match rels with
    | some r => mergeRelataions r dRel
    | none => dRel
  let res := (storeFind db name ids).head?
  let s3 : SState := { s2 with events := s2.events ++ [StoreEvent.findOneCall name ids merged] }
  match res with
  | some e => (some e, cacheEnt e s3)
  | none => (none, s3)

/-- Embedding of `StoreWithCache.findOneBy` with an `In(ids)` condition. -/
def findOneBy (order : List String) (db : Db) (name : String) (ids : List String)
    (s : SState) : Option Entity × SState :=
  let s1 := flush order (some name) s
  let res := (storeFind db name ids).head?
  let s2 : SState := { s1 with events := s1.events ++ [StoreEvent.findOneByCall name ids] }
  match res with
  | some e => (some e, cacheEnt e s2)
  | none => (none, s2)

/-- Embedding of `StoreWithCache.count`: flush up to the type, then pass the
query through to the store (the returned number is produced externally). -/
def countOp (order : List String) (name : String) (s : SState) : SState :=
  let s1 := flush order (some name) s
  { s1 with events := s1.events ++ [StoreEvent.countCall name] }

/-- Embedding of `StoreWithCache.countBy` with an `In(ids)` condition. -/
def countByOp (order : List String) (name : String) (ids : List String)
    (s : SState) : SState :=
  let s1 := flush order (some name) s
  { s1 with events := s1.events ++ [StoreEvent.countByCall name ids] }

/-- The placeholder loop of `load`: every deferred id that has no cache entry
yet is pre-marked with the explicit absent marker. -/
def markAbsent (name : String) (ids : List String) (s : SState) : SState :=
  ids.foldl
    (fun t i =>
      if (lookup2 t.cacheMap name i).isSome then t
      else { t with cacheMap := set2 t.cacheMap name i none })
    { s with cacheMap := ensure s.cacheMap name [] }

/-- Embedding of the private `load`: when the type has deferred ids, pre-mark
uncached ids as absent, run `find` over all deferred ids with the accumulated
relations, and drop the type's deferred entry. -/
def load (order : List String) (db : Db) (name : String) (s : SState) : SState :=
  let s1 : SState := { s with deferMap := ensure s.deferMap name ⟨[], RelSpec.nil⟩ }
  let d := (alookup s1.deferMap name).getD ⟨[], RelSpec.nil⟩
  if d.ids = [] then s1
  else
    let s2 := markAbsent name d.ids s1
    let s3 := (find order db name d.ids (some d.relations) s2).2
    { s3 with deferMap := adelete s3.deferMap name }

/-- Embedding of `StoreWithCache.get` on the string-id path: resolve deferred
loads, then serve from the cache (a copy of the cached entity, or not-found on
the absent marker); on a cache miss, flush up to the type, query the store and
cache a found row. -/
def getById (order : List String) (db : Db) (name id : String) (s : SState) :
    Option Entity × SState :=
  let s1 := load order db name s
  let s2 : SState := { s1 with cacheMap := ensure s1.cacheMap name [] }
  match lookup2 s2.cacheMap name id with
  | some none => (none, s2)
  | some (some e) => (some e, s2)
  | none =>
      let s3 := flush order (some name) s2
      let s4 : SState := { s3 with events := s3.events ++ [StoreEvent.getCall name id] }
      match db name id with
      | none => (none, s4)
      | some v => (some ⟨name, id, v⟩, cacheEnt ⟨name, id, v⟩ s4)

/-- Embedding of `StoreWithCache.defer`: register the class, add the id to the
type's deferred set and merge the optional relations into the accumulated
relation path. -/
def defer (name id : String) (rels : Option RelObj) (s : SState) : SState :=
  let s1 : SState :=
    { s with classes := sadd s.classes name,
             deferMap := ensure s.deferMap name ⟨[], RelSpec.nil⟩ }
  let d := (alookup s1.deferMap name).getD ⟨[], RelSpec.nil⟩
  let d' : DeferData :=
    { ids := sadd d.ids id,
      relations :=
        match rels with
        | some r => mergeRelataions d.relations r
        | none => d.relations }
  { s1 with deferMap := aset s1.deferMap name d' }

/-- Resolution of the lazy handle returned by `defer`: `DeferredValue.get`
forwards to `StoreWithCache.get` with the bound type and id. -/
def deferredValueGet (order : List String) (db : Db) (name id : String)
    (s : SState) : Option Entity × SState :=
  getById order db name id s

/-- The per-entity loop of `insert`: assert the id is pending in neither
buffer of the first element's type and has no non-absent cache entry of that
type (`cached == null` also accepts the explicit absent marker), then cache
the entity under its own constructor and buffer it under the first element's
type.  `none` models a failed assertion. -/
def insertLoop (name : String) : List Entity → SState → Option SState
  | [], s => some s
  | e :: rest, s =>
      if (lookup2 s.insertMap name e.id).isSome then none
      else if (lookup2 s.upsertMap name e.id).isSome then none
      else
        match lookup2 s.cacheMap name e.id with
        | some (some _) => none
        | _ =>
            let s1 := cacheEnt e s
            insertLoop name rest { s1 with insertMap := set2 s1.insertMap name e.id e }

/-- Embedding of `StoreWithCache.insert`: an empty array is a no-op; otherwise
all maps are selected from the first element's constructor name and each
entity is processed by `insertLoop`. -/
def insertWC (es : List Entity) (s : SState) : Option SState :=
  match es with
  | [] => some s
  | e₀ :: _ =>
      let name := e₀.typeName
      let s1 : SState :=
        { s with insertMap := ensure s.insertMap name [],
                 upsertMap := ensure s.upsertMap name [],
                 cacheMap := ensure s.cacheMap name [] }
      insertLoop name es s1

/-- The per-entity loop of `upsert`: cache the entity under its own
constructor, then place it in the upsert buffer of the first element's type
unless its id is already pending in that type's insert buffer. -/
def upsertLoop (name : String) : List Entity → SState → SState
  | [], s => s
  | e :: rest, s =>
      let s1 := cacheEnt e s
      let s2 :=
        if (lookup2 s1.insertMap name e.id).isSome then s1
        else { s1 with upsertMap := set2 s1.upsertMap name e.id e }
      upsertLoop name rest s2

/-- Embedding of `StoreWithCache.upsert`: an empty array is a no-op; otherwise
the buffers are selected from the first element's constructor name and each
entity is processed by `upsertLoop`.  `save` is an alias of this operation. -/
def upsert (es : List Entity) (s : SState) : SState :=
  match es with
  | [] => s
  | e₀ :: _ =>
      let name := e₀.typeName
      let s1 : SState :=
        { s with insertMap := ensure s.insertMap name [],
                 upsertMap := ensure s.upsertMap name [] }
      upsertLoop name es s1

/-- Read a per-type id set of a map of sets, defaulting to empty. -/
def readSet (m : List (String × List String)) (name : String) : List String :=
  (alookup m name).getD []

namespace V2

/-- The second implementation's state: its deferred registry is a plain map
from type name to a set of ids (no accumulated relations), and its `insert` /
`upsert` write the entity directly into the first element's cache map. -/
structure St : Type where
  deferList : List (String × List String)
  cacheMap : List (String × List (String × Option Entity))
  classes : List String
  insertList : BufMap
  upsertList : BufMap
  events : List StoreEvent
deriving DecidableEq

/-- The empty session state of the second implementation. -/
def initSt : St := ⟨[], [], [], [], [], []⟩

/-- The second implementation's `flush` loop: it additionally touches the
visited type's cache map through `getCacheMap`, and its `entityClass`
argument is mandatory. -/
def flushLoop : List String → String → St → St
  | [], _, s => s
  | name :: rest, stopAt, s =>
      let s1 : St :=
        { s with cacheMap := ensure s.cacheMap name [],
                 insertList := aset s.insertList name [],
                 upsertList := aset s.upsertList name [],
                 events := s.events ++ callsFor name s.insertList s.upsertList }
      if stopAt = name then s1 else flushLoop rest stopAt s1

/-- Embedding of the second implementation's `flush`. -/
def flush (order : List String) (stopAt : String) (s : St) : St :=
  flushLoop order stopAt s

/-- The second implementation's `cache`: the defer set and cache map of the
first entity's constructor name receive every entity — each id is removed
from that defer set and the entity object is stored in that cache map. -/
def cacheList (es : List Entity) (s : St) : St :=
  match es with
  | [] => s
  | e₀ :: _ =>
      let name := e₀.typeName
      let s1 : St :=
        { s with deferList := ensure s.deferList name [],
                 cacheMap := ensure s.cacheMap name [] }
      es.foldl
        (fun t e =>
          { t with
              deferList := aset t.deferList name (sdelete (readSet t.deferList name) e.id),
              cacheMap := set2 t.cacheMap name e.id (some e) })
        s1

/-- The second implementation's `find` with an `In(ids)` condition (it merges
no relations). -/
def find (order : List String) (db : Db) (name : String) (ids : List String)
    (s : St) : List Entity × St :=
  let s1 := flush order name s
  let res := storeFind db name ids
  let s2 : St := { s1 with events := s1.events ++ [StoreEvent.findCall name ids RelSpec.nil] }
  (res, cacheList res s2)

/-- The absent-marking loop of the second implementation's `load`, run after
the bulk find over the ids still left in the live defer set. -/
def markAbsent (name : String) (ids : List String) (s : St) : St :=
  ids.foldl
    (fun t i =>
      if (lookup2 t.cacheMap name i).isSome then t
      else { t with cacheMap := set2 t.cacheMap name i none })
    { s with cacheMap := ensure s.cacheMap name [] }

/-- The second implementation's `load` iterates every type of the deferred
registry: non-empty sets are resolved through `find` (asserting the class was
registered), ids the find left unresolved get absent markers, and the set is
cleared.  `none` models the failed class assertion. -/
def loadLoop (order : List String) (db : Db) : List String → St → Option St
  | [], s => some s
  | name :: rest, s =>
      let ids := readSet s.deferList name
      if ids = [] then loadLoop order db rest s
      else if name ∈ s.classes then
        let s1 := (find order db name ids s).2
        let rem := readSet s1.deferList name
        let s2 := markAbsent name rem s1
        let s3 : St := { s2 with deferList := aset s2.deferList name [] }
        loadLoop order db rest s3
      else none

/-- Embedding of the second implementation's `load`. -/
def load (order : List String) (db : Db) (s : St) : Option St :=
  loadLoop order db (s.deferList.map Prod.fst) s

/-- The second implementation's `get` on the string-id path: resolve all
deferred loads, serve a cache hit (`structuredClone` of the entry, or
not-found on the absent marker), and on a miss flush, query the store and
cache a found row. -/
def getById (order : List String) (db : Db) (name id : String) (s : St) :
    Option (Option Entity × St) :=
  match load order db s with
  | none => none
  | some s1 =>
      let s2 : St := { s1 with cacheMap := ensure s1.cacheMap name [] }
      match lookup2 s2.cacheMap name id with
      | some none => some (none, s2)
      | some (some e) => some (some e, s2)
      | none =>
          let s3 := flush order name s2
          let s4 : St := { s3 with events := s3.events ++ [StoreEvent.getCall name id] }
          match db name id with
          | none => some (none, s4)
          | some v => some (some ⟨name, id, v⟩, cacheList [⟨name, id, v⟩] s4)

/-- The second implementation's `defer`: the id is added to the type's
deferred set only when the cache has no entry for it yet. -/
def defer (name id : String) (s : St) : St :=
  let s1 : St :=
    { s with classes := sadd s.classes name,
             deferList := ensure s.deferList name [],
             cacheMap := ensure s.cacheMap name [] }
  if (lookup2 s1.cacheMap name id).isSome then s1
  else { s1 with deferList := aset s1.deferList name (sadd (readSet s1.deferList name) id) }

/-- Resolution of the second implementation's `DeferredValue` handle. -/
def deferredValueGet (order : List String) (db : Db) (name id : String)
    (s : St) : Option (Option Entity × St) :=
  getById order db name id s

/-- The per-entity loop of the second implementation's `insert`: the id is
removed from the first element's defer set, the duplicate assertions run
against the first element's maps, and the entity is written to the first
element's insert buffer and cache map. -/
def insertLoop (name : String) : List Entity → St → Option St
  | [], s => some s
  | e :: rest, s =>
      let s0 : St :=
        { s with deferList := aset s.deferList name (sdelete (readSet s.deferList name) e.id) }
      if (lookup2 s0.insertList name e.id).isSome then none
      else if (lookup2 s0.upsertList name e.id).isSome then none
      else
        match lookup2 s0.cacheMap name e.id with
        | some (some _) => none
        | _ =>
            insertLoop name rest
              { s0 with insertList := set2 s0.insertList name e.id e,
                        cacheMap := set2 s0.cacheMap name e.id (some e) }

/-- Embedding of the second implementation's `insert`. -/
def insert (es : List Entity) (s : St) : Option St :=
  match es with
  | [] => some s
  | e₀ :: _ =>
      let name := e₀.typeName
      let s1 : St :=
        { s with deferList := ensure s.deferList name [],
                 insertList := ensure s.insertList name [],
                 upsertList := ensure s.upsertList name [],
                 cacheMap := ensure s.cacheMap name [] }
      insertLoop name es s1

/-- The per-entity loop of the second implementation's `upsert`: the id is
removed from the first element's defer set, the entity is placed in the first
element's upsert buffer unless its id is pending in the first element's insert
buffer, and the entity is written to the first element's cache map. -/
def upsertLoop (name : String) : List Entity → St → St
  | [], s => s
  | e :: rest, s =>
      let s0 : St :=
        { s with deferList := aset s.deferList name (sdelete (readSet s.deferList name) e.id) }
      let s1 :=
        if (lookup2 s0.insertList name e.id).isSome then s0
        else { s0 with upsertList := set2 s0.upsertList name e.id e }
      upsertLoop name rest { s1 with cacheMap := set2 s1.cacheMap name e.id (some e) }

/-- Embedding of the second implementation's `upsert`: an empty array is a
no-op; otherwise the defer set, both buffers and the cache map are all
selected from the first element's constructor name and each entity is
processed by `upsertLoop`.  `save` is an alias of this operation. -/
def upsert (es : List Entity) (s : St) : St :=
  match es with
  | [] => s
  | e₀ :: _ =>
      let name := e₀.typeName
      let s1 : St :=
        { s with deferList := ensure s.deferList name [],
                 insertList := ensure s.insertList name [],
                 upsertList := ensure s.upsertList name [],
                 cacheMap := ensure s.cacheMap name [] }
      upsertLoop name es s1

end V2

/-- A heap object for the aliasing model: the id column and scalar content of
one entity of a fixed type. -/
structure Obj : Type where
  id : String
  val : Nat
deriving DecidableEq

/-- A reference-passing state for `get` on one entity type: a heap of
allocated entity objects, the cache map holding references into the heap
(`none` being the absent marker), and an allocation counter. -/
structure HState : Type where
  heap : List (Nat × Obj)
  cacheRef : List (String × Option Nat)
  nextAddr : Nat
deriving DecidableEq

/-- The object stored at a heap address. -/
def heapAt (h : List (Nat × Obj)) (a : Nat) : Obj :=
  (alookup h a).getD ⟨"", 0⟩

/-- Allocation of a fresh object. -/
def halloc (s : HState) (o : Obj) : Nat × HState :=
  (s.nextAddr, { s with heap := aset s.heap s.nextAddr o, nextAddr := s.nextAddr + 1 })

/-- Heap-level embedding of `get(type, id)` for one entity type with no
deferred ids and empty buffers (so `load` and `flush` do nothing): a cache hit
returns a freshly allocated deep copy of the cached object (`copy(entity)` /
`structuredClone(entity)`), while a cache miss loads the row, allocates the
object `cache` stores in the cache map, and returns that very object
(`store.get(entityClass, id).then((v) => v && this.cache(v))`). -/
def hget (db : String → Option Nat) (s : HState) (id : String) : Option Nat × HState :=
  match alookup s.cacheRef id with
  | some none => (none, s)
  | some (some a) =>
      let p := halloc s (heapAt s.heap a)
      (some p.1, p.2)
  | none =>
      match db id with
      | none => (none, s)
      | some v =>
          let p := halloc s ⟨id, v⟩
          (some p.1, { p.2 with cacheRef := aset p.2.cacheRef id (some p.1) })

/-- Caller-side mutation of a returned entity object: the scalar content at
the given reference is overwritten in place. -/
def hmutate (s : HState) (a : Nat) (newVal : Nat) : HState :=
  { s with heap := aset s.heap a ⟨(heapAt s.heap a).id, newVal⟩ }

/-- The entity value a later `get` of the same id lets the caller observe. -/
def hread (db : String → Option Nat) (s : HState) (id : String) : Option Obj :=
  let r := hget db s id
  r.1.map (fun a => heapAt r.2.heap a)

/-- The driver-visible operations of the first implementation, for reasoning
about arbitrary operation sequences. -/
inductive Op : Type where
  | insertOp : List Entity → Op
  | upsertOp : List Entity → Op
  | saveOp : List Entity → Op
  | deferOp : String → String → Option RelObj → Op
  | getOp : String → String → Op
  | findOp : String → List String → Option RelObj → Op
  | findByOp : String → List String → Op
  | findOneOp : String → List String → Option RelObj → Op
  | findOneByOp : String → List String → Op
  | countOperation : String → Op
  | countByOperation : String → List String → Op
  | flushOp : Option String → Op

/-- One driver step; `none` models a failed assertion aborting the run. -/
def runOp (order : List String) (db : Db) (op : Op) (s : SState) : Option SState :=
  match op with
  | .insertOp es => insertWC es s
  | .upsertOp es => some (upsert es s)
  | .saveOp es => some (upsert es s)
  | .deferOp n i r => some (defer n i r s)
  | .getOp n i => some (getById order db n i s).2
  | .findOp n ids r => some (find order db n ids r s).2
  | .findByOp n ids => some (findBy order db n ids s).2
  | .findOneOp n ids r => some (findOne order db n ids r s).2
  | .findOneByOp n ids => some (findOneBy order db n ids s).2
  | .countOperation n => some (countOp order n s)
  | .countByOperation n ids => some (countByOp order n ids s)
  | .flushOp stopAt => some (flush order stopAt s)

/-- A driver-issued operation sequence. -/
def runList (order : List String) (db : Db) : List Op → SState → Option SState
  | [], s => some s
  | op :: rest, s =>
      match runOp order db op s with
      | none => none
      | some s' => runList order db rest s'

/-- The buffer mutual-exclusion invariant: no id is simultaneously pending in
the insert buffer and the upsert buffer of the same type. -/
def BufInv (s : SState) : Prop :=
  ∀ name id, ¬((lookup2 s.insertMap name id).isSome ∧ (lookup2 s.upsertMap name id).isSome)

/-- A foreign key of the schema: type `A` has a foreign-key column referencing
type `B` (`metadata.foreignKeys` of `getTopologicalOrder`). -/
def FK (schema : List (String × List String)) (A B : String) : Prop :=
  ∃ fks, (A, fks) ∈ schema ∧ B ∈ fks

/-- Position order in a list: `x` occurs and `y` occurs strictly later. -/
def listBefore (x y : String) (l : List String) : Prop :=
  ∃ l₁ l₂, l = l₁ ++ x :: l₂ ∧ y ∈ l₂

/-- Modelled from the spec: `getTopologicalOrder` delegates to the external
`graph-data-structure` library, whose sorting code is not part of this
repository; per the spec, the reversed topological sort lists every entity
type exactly once with each referenced type placed before every type that
references it. -/
def isRevTopoOrder (schema : List (String × List String)) (order : List String) : Prop :=
  order.Nodup ∧ (∀ p ∈ schema, p.1 ∈ order) ∧
    ∀ A B, FK schema A B → listBefore B A order

/-- Store calls that read data (queries), as opposed to bulk writes. -/
def isQueryEvent : StoreEvent → Bool
  | .findCall _ _ _ => true
  | .findByCall _ _ => true
  | .findOneCall _ _ _ => true
  | .findOneByCall _ _ => true
  | .getCall _ _ => true
  | _ => false

/-- Recognizer for a bulk upsert call draining the given type's buffer. -/
def isUpsertCallOf (T : String) : StoreEvent → Bool
  | .upsertCall n _ => n = T
  | _ => false

theorem alookup_aset {κ α : Type} [DecidableEq κ] (m : List (κ × α)) (k k' : κ) (v : α) :
    alookup (aset m k v) k' = if k = k' then some v else alookup m k' := by
  induction m with
  | nil => simp [aset, alookup]
  | cons p rest ih =>
      rcases p with ⟨pk, pv⟩
      by_cases h : pk = k
      · subst h
        simp only [aset, if_pos rfl, alookup]
        by_cases h2 : pk = k' <;> simp [h2]
      · simp only [aset, if_neg h, alookup, ih]
        by_cases h2 : pk = k'
        · subst h2
          simp [if_neg (Ne.symm h)]
        · simp [h2]

theorem alookup_aset_self {κ α : Type} [DecidableEq κ] (m : List (κ × α)) (k : κ) (v : α) :
    alookup (aset m k v) k = some v := by
  simp [alookup_aset]

theorem alookup_aset_ne {κ α : Type} [DecidableEq κ] (m : List (κ × α)) (k k' : κ) (v : α)
    (h : k ≠ k') : alookup (aset m k v) k' = alookup m k' := by
  simp [alookup_aset, h]

theorem aset_of_alookup_eq {κ α : Type} [DecidableEq κ] (m : List (κ × α)) (k : κ) (v : α)
    (h : alookup m k = some v) : aset m k v = m := by
  induction m with
  | nil => simp [alookup] at h
  | cons p rest ih =>
      rcases p with ⟨pk, pv⟩
      by_cases hk : pk = k
      · subst hk
        have hv : pv = v := by simpa [alookup] using h
        subst hv
        simp [aset]
      · simp only [alookup, if_neg hk] at h
        simp [aset, hk, ih h]

theorem alookup_ensure {α : Type} (m : List (String × α)) (name k : String) (e : α) :
    alookup (ensure m name e) k =
      if name = k then some ((alookup m name).getD e) else alookup m k := by
  simp [ensure, alookup_aset]

theorem readL_aset_ne {α : Type} (m : List (String × List (String × α))) (n n' : String)
    (l : List (String × α)) (h : n ≠ n') : readL (aset m n l) n' = readL m n' := by
  simp [readL, alookup_aset_ne _ _ _ _ h]

theorem readL_aset_self {α : Type} (m : List (String × List (String × α))) (n : String)
    (l : List (String × α)) : readL (aset m n l) n = l := by
  simp [readL, alookup_aset_self]

theorem lookup2_aset_outer_ne {α : Type} (m : List (String × List (String × α)))
    (n n' i : String) (l : List (String × α)) (h : n ≠ n') :
    lookup2 (aset m n l) n' i = lookup2 m n' i := by
  simp [lookup2, alookup_aset_ne _ _ _ _ h]

theorem lookup2_set2 {α : Type} (m : List (String × List (String × α))) (n i n' i' : String)
    (v : α) :
    lookup2 (set2 m n i v) n' i' =
      if n = n' then (if i = i' then some v else lookup2 m n' i') else lookup2 m n' i' := by
  by_cases hn : n = n'
  · subst hn
    rw [if_pos rfl]
    by_cases hi : i = i'
    · subst hi
      simp [lookup2, set2, alookup_aset_self]
    · rw [if_neg hi]
      have h1 : lookup2 (set2 m n i v) n i' = alookup (aset (readL m n) i v) i' := by
        simp [lookup2, set2, alookup_aset_self]
      rw [h1, alookup_aset_ne _ _ _ _ hi]
      cases h : alookup m n with
      | none => simp [lookup2, readL, h, alookup]
      | some inner => simp [lookup2, readL, h]
  · simp [set2, lookup2, alookup_aset_ne _ _ _ _ hn, hn]

theorem lookup2_ensure {α : Type} (m : List (String × List (String × α))) (n n' i : String) :
    lookup2 (ensure m n []) n' i = lookup2 m n' i := by
  by_cases hn : n = n'
  · subst hn
    simp only [lookup2, alookup_ensure, if_pos rfl]
    cases h : alookup m n with
    | none => simp [alookup]
    | some inner => simp
  · simp [lookup2, alookup_ensure, hn]

theorem readSet_aset_ne (m : List (String × List String)) (n n' : String) (l : List String)
    (h : n ≠ n') : readSet (aset m n l) n' = readSet m n' := by
  simp [readSet, alookup_aset_ne _ _ _ _ h]

theorem readL_ensure {α : Type} (m : List (String × List (String × α))) (n n' : String) :
    readL (ensure m n []) n' = readL m n' := by
  by_cases hn : n = n'
  · subst hn
    simp only [readL, alookup_ensure, if_pos rfl]
    cases h : alookup m n <;> simp
  · simp [readL, alookup_ensure, hn]

theorem flushLoop_cacheMap (l : List String) (st : Option String) (s : SState) :
    (flushLoop l st s).cacheMap = s.cacheMap := by
  induction l generalizing s with
  | nil => rfl
  | cons name rest ih =>
      simp only [flushLoop]
      by_cases h : st = some name <;> simp [h, ih]

theorem flushLoop_deferMap (l : List String) (st : Option String) (s : SState) :
    (flushLoop l st s).deferMap = s.deferMap := by
  induction l generalizing s with
  | nil => rfl
  | cons name rest ih =>
      simp only [flushLoop]
      by_cases h : st = some name <;> simp [h, ih]

theorem flushLoop_classes (l : List String) (st : Option String) (s : SState) :
    (flushLoop l st s).classes = s.classes := by
  induction l generalizing s with
  | nil => rfl
  | cons name rest ih =>
      simp only [flushLoop]
      by_cases h : st = some name <;> simp [h, ih]

theorem flushLoop_events (l : List String) (st : Option String) (s : SState) :
    (flushLoop l st s).events = s.events ++ flushTrace l s.insertMap s.upsertMap st := by
  induction l generalizing s with
  | nil => simp [flushLoop, flushTrace]
  | cons name rest ih =>
      simp only [flushLoop, flushTrace]
      by_cases h : st = some name
      · simp [h]
      · simp [h, ih, List.append_assoc]

theorem flushTrace_filter_query (l : List String) (im um : BufMap) (st : Option String) :
    (flushTrace l im um st).filter isQueryEvent = [] := by
  induction l generalizing im um with
  | nil => rfl
  | cons name rest ih =>
      simp only [flushTrace, List.filter_append, callsFor]
      by_cases h1 : readL im name = [] <;> by_cases h2 : readL um name = [] <;>
        by_cases h : st = some name <;>
          simp [h1, h2, h, ih, isQueryEvent]

theorem flushTrace_empty (l : List String) (im um : BufMap) (st : Option String)
    (him : ∀ n, readL im n = []) (hum : ∀ n, readL um n = []) :
    flushTrace l im um st = [] := by
  induction l generalizing im um with
  | nil => rfl
  | cons name rest ih =>
      simp only [flushTrace, callsFor, him, hum, if_pos rfl]
      by_cases h : st = some name
      · simp [h]
      · simp only [h, if_neg h, List.nil_append]
        refine ih _ _ ?_ ?_ <;> intro n
        · by_cases hn : name = n
          · subst hn; simp [readL_aset_self]
          · simp [readL_aset_ne _ _ _ _ hn, him]
        · by_cases hn : name = n
          · subst hn; simp [readL_aset_self]
          · simp [readL_aset_ne _ _ _ _ hn, hum]

theorem v2_flushLoop_deferList (l : List String) (stop : String) (s : V2.St) :
    (V2.flushLoop l stop s).deferList = s.deferList := by
  induction l generalizing s with
  | nil => rfl
  | cons name rest ih =>
      simp only [V2.flushLoop]
      by_cases h : stop = name <;> simp [h, ih]

theorem v2_flushLoop_classes (l : List String) (stop : String) (s : V2.St) :
    (V2.flushLoop l stop s).classes = s.classes := by
  induction l generalizing s with
  | nil => rfl
  | cons name rest ih =>
      simp only [V2.flushLoop]
      by_cases h : stop = name <;> simp [h, ih]

theorem v2_flushLoop_cacheMap_lookup (l : List String) (stop : String) (s : V2.St)
    (n i : String) :
    lookup2 (V2.flushLoop l stop s).cacheMap n i = lookup2 s.cacheMap n i := by
  induction l generalizing s with
  | nil => rfl
  | cons name rest ih =>
      simp only [V2.flushLoop]
      by_cases h : stop = name
      · simp [h, lookup2_ensure]
      · simp [h, ih, lookup2_ensure]

theorem v2_flushLoop_events (l : List String) (stop : String) (s : V2.St) :
    (V2.flushLoop l stop s).events
      = s.events ++ flushTrace l s.insertList s.upsertList (some stop) := by
  induction l generalizing s with
  | nil => simp [V2.flushLoop, flushTrace]
  | cons name rest ih =>
      simp only [V2.flushLoop, flushTrace]
      by_cases h : stop = name
      · simp [h]
      · have h' : ¬(some stop = some name) := by simpa using h
        simp [h, h', ih, List.append_assoc]

/-- C10: `flush` modifies only the insert and upsert buffers — in the first
implementation the cache map and the deferred registry are untouched, and in
the second implementation every (type, id) cache entry and the deferred
registry are exactly the same after any flush as before it. -/
theorem C10_flush_frame (order : List String) (stopAt : Option String) (s : SState)
    (stop2 : String) (t : V2.St) (name id : String) :
    (flush order stopAt s).cacheMap = s.cacheMap
    ∧ (flush order stopAt s).deferMap = s.deferMap
    ∧ lookup2 (V2.flush order stop2 t).cacheMap name id = lookup2 t.cacheMap name id
    ∧ (V2.flush order stop2 t).deferList = t.deferList := by
  exact ⟨flushLoop_cacheMap order stopAt s, flushLoop_deferMap order stopAt s,
    v2_flushLoop_cacheMap_lookup order stop2 t name id, v2_flushLoop_deferList order stop2 t⟩

theorem cacheList_events (es : List Entity) (s : SState) :
    (cacheList es s).events = s.events := by
  induction es generalizing s with
  | nil => rfl
  | cons e rest ih => simp [cacheList, List.foldl_cons, ih, cacheEnt] at ih ⊢; exact ih _

theorem cacheList_insertMap (es : List Entity) (s : SState) :
    (cacheList es s).insertMap = s.insertMap := by
  induction es generalizing s with
  | nil => rfl
  | cons e rest ih => simp [cacheList, List.foldl_cons, cacheEnt] at ih ⊢; exact ih _

theorem cacheList_upsertMap (es : List Entity) (s : SState) :
    (cacheList es s).upsertMap = s.upsertMap := by
  induction es generalizing s with
  | nil => rfl
  | cons e rest ih => simp [cacheList, List.foldl_cons, cacheEnt] at ih ⊢; exact ih _

theorem cacheList_deferMap (es : List Entity) (s : SState) :
    (cacheList es s).deferMap = s.deferMap := by
  induction es generalizing s with
  | nil => rfl
  | cons e rest ih => simp [cacheList, List.foldl_cons, cacheEnt] at ih ⊢; exact ih _

theorem load_empty (order : List String) (db : Db) (n : String) (s : SState)
    (h : ((alookup s.deferMap n).getD ⟨[], RelSpec.nil⟩).ids = []) :
    load order db n s = { s with deferMap := ensure s.deferMap n ⟨[], RelSpec.nil⟩ } := by
  unfold load
  simp only [alookup_ensure, eq_self_iff_true, if_true, Option.getD_some]
  rw [if_pos h]

/-- C2 counterexample: with an id already cached for type `A`, no deferred
ids, and a pending upsert buffered for `A`, the public `get(A, id)` serves the
cached value while issuing no store call at all and leaving the pending
upsert unflushed — contradicting that every `get(type, id)` call flushes
pending writes before producing its result. -/
theorem C2_counterexample :
    let s0 : SState :=
      { deferMap := [], cacheMap := [("A", [("x", some ⟨"A", "x", 1⟩)])], classes := [],
        insertMap := [], upsertMap := [("A", [("x", ⟨"A", "x", 2⟩)])], events := [] }
    (getById ["A"] (fun _ _ => none) "A" "x" s0).1 = some ⟨"A", "x", 1⟩
    ∧ (getById ["A"] (fun _ _ => none) "A" "x" s0).2.events = []
    ∧ (getById ["A"] (fun _ _ => none) "A" "x" s0).2.upsertMap = [("A", [("x", ⟨"A", "x", 2⟩)])] := by
  exact ⟨rfl, rfl, rfl⟩

/-- Merged relation path a `find`/`findOne` call sends to the store: the
passed relations merged with the type's accumulated deferred relations. -/
def mergedRelsOf (rels : Option RelObj) (s : SState) (T : String) : RelObj :=
  match rels with
  | some r => mergeRelataions r ((alookup s.deferMap T).getD ⟨[], RelSpec.nil⟩).relations
  | none => ((alookup s.deferMap T).getD ⟨[], RelSpec.nil⟩).relations

theorem find_events (order : List String) (db : Db) (T : String) (ids : List String)
    (rels : Option RelObj) (s : SState) :
    (find order db T ids rels s).2.events
      = s.events ++ flushTrace order s.insertMap s.upsertMap (some T)
        ++ [StoreEvent.findCall T ids (mergedRelsOf rels s T)] := by
  simp only [find, flush, cacheList_events]
  simp only [flushLoop_deferMap, alookup_ensure, eq_self_iff_true, if_true, Option.getD_some]
  simp [flushLoop_events, mergedRelsOf, List.append_assoc]

theorem findBy_events (order : List String) (db : Db) (T : String) (ids : List String)
    (s : SState) :
    (findBy order db T ids s).2.events
      = s.events ++ flushTrace order s.insertMap s.upsertMap (some T)
        ++ [StoreEvent.findByCall T ids] := by
  simp only [findBy, flush, cacheList_events]
  simp [flushLoop_events, List.append_assoc]

theorem findOne_events (order : List String) (db : Db) (T : String) (ids : List String)
    (rels : Option RelObj) (s : SState) :
    (findOne order db T ids rels s).2.events
      = s.events ++ flushTrace order s.insertMap s.upsertMap (some T)
        ++ [StoreEvent.findOneCall T ids (mergedRelsOf rels s T)] := by
  simp only [findOne, flush]
  cases h : (storeFind db T ids).head? with
  | none =>
      simp only [h]
      simp only [flushLoop_deferMap, alookup_ensure, eq_self_iff_true, if_true,
        Option.getD_some]
      simp [flushLoop_events, mergedRelsOf, List.append_assoc]
  | some e' =>
      simp only [h]
      simp only [flushLoop_deferMap, alookup_ensure, eq_self_iff_true, if_true,
        Option.getD_some]
      simp [cacheEnt, flushLoop_events, mergedRelsOf, List.append_assoc]

theorem findOneBy_events (order : List String) (db : Db) (T : String) (ids : List String)
    (s : SState) :
    (findOneBy order db T ids s).2.events
      = s.events ++ flushTrace order s.insertMap s.upsertMap (some T)
        ++ [StoreEvent.findOneByCall T ids] := by
  simp only [findOneBy, flush]
  cases h : (storeFind db T ids).head? with
  | none => simp [h, flushLoop_events, List.append_assoc]
  | some e' => simp [h, cacheEnt, flushLoop_events, List.append_assoc]

theorem countOp_events (order : List String) (T : String) (s : SState) :
    (countOp order T s).events
      = s.events ++ flushTrace order s.insertMap s.upsertMap (some T)
        ++ [StoreEvent.countCall T] := by
  simp only [countOp, flush]
  simp [flushLoop_events, List.append_assoc]

theorem countByOp_events (order : List String) (T : String) (ids : List String) (s : SState) :
    (countByOp order T ids s).events
      = s.events ++ flushTrace order s.insertMap s.upsertMap (some T)
        ++ [StoreEvent.countByCall T ids] := by
  simp only [countByOp, flush]
  simp [flushLoop_events, List.append_assoc]

/-- C2 amended: `find`, `findBy`, `findOne`, `findOneBy`, `count` and
`countBy` always flush pending buffered writes before their store access, but
`get(type, id)` with a string id flushes only on the cache-miss path: when the
id already has a cache entry and the type has no pending deferred ids, it is
served from the cache with no flush and no store call, while on a cache miss
the flush happens before the store query. -/
theorem C2_read_flush (order : List String) (db : Db) (T : String) (ids : List String)
    (rels : Option RelObj) (s : SState) (e : Entity) (id : String)
    (T2 id2 : String) (t : SState)
    (hd : ((alookup s.deferMap T).getD ⟨[], RelSpec.nil⟩).ids = [])
    (hhit : lookup2 s.cacheMap T id = some (some e))
    (hd2 : ((alookup t.deferMap T2).getD ⟨[], RelSpec.nil⟩).ids = [])
    (hmiss : lookup2 t.cacheMap T2 id2 = none) :
    (∃ rest, (find order db T ids rels s).2.events
        = s.events ++ flushTrace order s.insertMap s.upsertMap (some T) ++ rest)
    ∧ (∃ rest, (findBy order db T ids s).2.events
        = s.events ++ flushTrace order s.insertMap s.upsertMap (some T) ++ rest)
    ∧ (∃ rest, (findOne order db T ids rels s).2.events
        = s.events ++ flushTrace order s.insertMap s.upsertMap (some T) ++ rest)
    ∧ (∃ rest, (findOneBy order db T ids s).2.events
        = s.events ++ flushTrace order s.insertMap s.upsertMap (some T) ++ rest)
    ∧ (∃ rest, (countOp order T s).events
        = s.events ++ flushTrace order s.insertMap s.upsertMap (some T) ++ rest)
    ∧ (∃ rest, (countByOp order T ids s).events
        = s.events ++ flushTrace order s.insertMap s.upsertMap (some T) ++ rest)
    ∧ ((getById order db T id s).1 = some e
        ∧ (getById order db T id s).2.events = s.events
        ∧ (getById order db T id s).2.insertMap = s.insertMap
        ∧ (getById order db T id s).2.upsertMap = s.upsertMap)
    ∧ (getById order db T2 id2 t).2.events
        = t.events ++ flushTrace order t.insertMap t.upsertMap (some T2)
            ++ [StoreEvent.getCall T2 id2] := by
  have hload := load_empty order db T s hd
  have hload2 := load_empty order db T2 t hd2
  refine ⟨⟨_, find_events order db T ids rels s⟩,
    ⟨_, findBy_events order db T ids s⟩,
    ⟨_, findOne_events order db T ids rels s⟩,
    ⟨_, findOneBy_events order db T ids s⟩,
    ⟨_, countOp_events order T s⟩,
    ⟨_, countByOp_events order T ids s⟩, ?_, ?_⟩
  · have hlook : lookup2 (ensure (load order db T s).cacheMap T []) T id
        = some (some e) := by
      rw [hload]
      simpa [lookup2_ensure] using hhit
    unfold getById
    simp only [hlook]
    rw [hload]
    simp
  · have hlook : lookup2 (ensure (load order db T2 t).cacheMap T2 []) T2 id2 = none := by
      rw [hload2]
      simpa [lookup2_ensure] using hmiss
    unfold getById
    simp only [hlook]
    rw [hload2]
    cases hdb : db T2 id2 with
    | none => simp [hdb, flush, flushLoop_events, List.append_assoc]
    | some v => simp [hdb, flush, flushLoop_events, cacheEnt, List.append_assoc]

/-- C2 witness: the read-flush theorem applied at a concrete hit state and a
concrete miss state. -/
theorem C2_read_flush_witness :
    let s0 : SState :=
      { deferMap := [], cacheMap := [("A", [("x", some ⟨"A", "x", 1⟩)])], classes := [],
        insertMap := [], upsertMap := [("A", [("x", ⟨"A", "x", 2⟩)])], events := [] }
    (((alookup s0.deferMap "A").getD ⟨[], RelSpec.nil⟩).ids = [])
    ∧ (lookup2 s0.cacheMap "A" "x" = some (some ⟨"A", "x", 1⟩))
    ∧ (((alookup initState.deferMap "B").getD ⟨[], RelSpec.nil⟩).ids = [])
    ∧ (lookup2 initState.cacheMap "B" "y" = none)
    ∧ ((getById ["A"] (fun _ _ => none) "A" "x" s0).1 = some ⟨"A", "x", 1⟩
        ∧ (getById ["A"] (fun _ _ => none) "A" "x" s0).2.events = s0.events
        ∧ (getById ["A"] (fun _ _ => none) "A" "x" s0).2.insertMap = s0.insertMap
        ∧ (getById ["A"] (fun _ _ => none) "A" "x" s0).2.upsertMap = s0.upsertMap) := by
  intro s0
  refine ⟨rfl, rfl, rfl, rfl, ?_⟩
  exact (C2_read_flush ["A"] (fun _ _ => none) "A" ["x"] none s0 ⟨"A", "x", 1⟩ "x"
    "B" "y" initState rfl rfl rfl rfl).2.2.2.2.2.2.1

theorem insert_single_eq (e : Entity) (s : SState) :
    insertWC [e] s =
      (if (lookup2 s.insertMap e.typeName e.id).isSome then none
       else if (lookup2 s.upsertMap e.typeName e.id).isSome then none
       else
         match lookup2 s.cacheMap e.typeName e.id with
         | some (some _) => none
         | _ =>
             some { deferMap := s.deferMap,
                    cacheMap := set2 (ensure s.cacheMap e.typeName []) e.typeName e.id (some e),
                    classes := s.classes,
                    insertMap := set2 (ensure s.insertMap e.typeName []) e.typeName e.id e,
                    upsertMap := ensure s.upsertMap e.typeName [],
                    events := s.events }) := by
  unfold insertWC insertLoop
  simp only [lookup2_ensure, cacheEnt]
  rcases h3 : lookup2 s.cacheMap e.typeName e.id with _ | v
  · simp [h3, insertLoop]
  · cases v <;> simp [h3, insertLoop]

theorem insert_none_iff (e : Entity) (s : SState) :
    insertWC [e] s = none ↔
      (lookup2 s.insertMap e.typeName e.id).isSome
      ∨ (lookup2 s.upsertMap e.typeName e.id).isSome
      ∨ ∃ v, lookup2 s.cacheMap e.typeName e.id = some (some v) := by
  rw [insert_single_eq]
  by_cases h1 : (lookup2 s.insertMap e.typeName e.id).isSome
  · simp [h1]
  · by_cases h2 : (lookup2 s.upsertMap e.typeName e.id).isSome
    · simp [h1, h2]
    · rcases h3 : lookup2 s.cacheMap e.typeName e.id with _ | v
      · simp [h1, h2, h3]
      · cases v <;> simp [h1, h2, h3]

theorem insert_some_insertMap (e : Entity) (s s' : SState)
    (h : insertWC [e] s = some s') :
    lookup2 s'.insertMap e.typeName e.id = some e := by
  rw [insert_single_eq] at h
  rcases hl1 : lookup2 s.insertMap e.typeName e.id with _ | x <;> rw [hl1] at h
  · rcases hl2 : lookup2 s.upsertMap e.typeName e.id with _ | y <;> rw [hl2] at h
    · rcases hl3 : lookup2 s.cacheMap e.typeName e.id with _ | v <;> rw [hl3] at h
      · simp only [Option.isSome_none, Bool.false_eq_true, if_false,
          Option.some.injEq] at h
        subst h
        simp [lookup2_set2]
      · cases v with
        | none =>
            simp only [Option.isSome_none, Bool.false_eq_true, if_false,
              Option.some.injEq] at h
            subst h
            simp [lookup2_set2]
        | some w => simp at h
    · simp at h
  · simp at h

/-- C3: a single-entity `insert(e)` fails its assertions exactly when `e.id`
already has a non-absent cache entry for its type or is already pending in
that type's insert or upsert buffer; inserting the same id twice before any
flush always fails regardless of the second entity's content, and inserting
an id whose cache entry is the explicit absent marker succeeds. -/
theorem C3_insert_assert (e : Entity) (s : SState) :
    (insertWC [e] s = none ↔
      (lookup2 s.insertMap e.typeName e.id).isSome
      ∨ (lookup2 s.upsertMap e.typeName e.id).isSome
      ∨ ∃ v, lookup2 s.cacheMap e.typeName e.id = some (some v))
    ∧ (∀ s' e', insertWC [e] s = some s' → e'.id = e.id → e'.typeName = e.typeName →
        insertWC [e'] s' = none)
    ∧ (lookup2 s.cacheMap e.typeName e.id = some none →
        lookup2 s.insertMap e.typeName e.id = none →
        lookup2 s.upsertMap e.typeName e.id = none →
        (insertWC [e] s).isSome) := by
  refine ⟨insert_none_iff e s, ?_, ?_⟩
  · intro s' e' hsome hid hty
    have hmem := insert_some_insertMap e s s' hsome
    rw [insert_none_iff]
    left
    rw [hty, hid, hmem]
    rfl
  · intro h3 h1 h2
    rw [← Option.ne_none_iff_isSome]
    intro hn
    rw [insert_none_iff] at hn
    rcases hn with hn | hn | ⟨v, hn⟩
    · rw [h1] at hn; simp at hn
    · rw [h2] at hn; simp at hn
    · rw [h3] at hn; simp at hn

/-- C3 witness: a fresh insert of id `x` succeeds, a second insert of the
same id with different content fails, and an insert over an explicit absent
marker succeeds. -/
theorem C3_insert_assert_witness :
    let sAbs : SState := { initState with cacheMap := [("A", [("x", none)])] }
    (lookup2 sAbs.cacheMap "A" "x" = some none)
    ∧ (lookup2 sAbs.insertMap "A" "x" = none)
    ∧ (lookup2 sAbs.upsertMap "A" "x" = none)
    ∧ (insertWC [⟨"A", "x", 1⟩] sAbs).isSome
    ∧ ((insertWC [(⟨"A", "x", 1⟩ : Entity)] initState).bind
        (fun t => insertWC [(⟨"A", "x", 2⟩ : Entity)] t) = none) := by
  intro sAbs
  refine ⟨rfl, rfl, rfl, ?_, ?_⟩
  · exact (C3_insert_assert ⟨"A", "x", 1⟩ sAbs).2.2 rfl rfl rfl
  · cases hh : insertWC [(⟨"A", "x", 1⟩ : Entity)] initState with
    | none => rfl
    | some s1 =>
        exact (C3_insert_assert ⟨"A", "x", 1⟩ initState).2.1 s1 ⟨"A", "x", 2⟩ hh rfl rfl

/-- C8 counterexample: on the load-from-store path, `get` returns the very
object that `cache` stored in the cache map; mutating the returned entity
(reference 0) afterwards changes the value produced by a later read of the
same id from content 5 to content 99 — so returned entities are not
independent of the cache's stored object on that path. -/
theorem C8_counterexample :
    let db : String → Option Nat := fun i => if i = "x" then some 5 else none
    let r1 := hget db ⟨[], [], 0⟩ "x"
    (r1.1 = some 0)
    ∧ (alookup r1.2.cacheRef "x" = some (some 0))
    ∧ (hread db r1.2 "x" = some ⟨"x", 5⟩)
    ∧ (hread db (hmutate r1.2 0 99) "x" = some ⟨"x", 99⟩) := by
  exact ⟨rfl, rfl, rfl, rfl⟩

/-- C8 amended: `get` with a string id returns an entity object independent of
the cache's stored object on the cache-hit path — there `copy(entity)` /
`structuredClone(entity)` allocates a fresh object, and mutating it leaves
every later read of the same (type, id) unchanged; on the load-from-store path
`get` returns the very object the cache stores (the reference is the one
recorded in the cache map), so mutation through it is visible to later
reads. -/
theorem C8_defensive_copy (db : String → Option Nat) (s : HState) (id : String) (a : Nat)
    (db2 : String → Option Nat) (t : HState) (id2 : String) (w : Nat)
    (hhit : alookup s.cacheRef id = some (some a)) (hlt : a < s.nextAddr)
    (hmiss : alookup t.cacheRef id2 = none) (hdb : db2 id2 = some w) :
    ((hget db s id).1 = some s.nextAddr
     ∧ ∀ v, hread db (hmutate (hget db s id).2 s.nextAddr v) id
         = hread db (hget db s id).2 id)
    ∧ ((hget db2 t id2).1 = some t.nextAddr
       ∧ alookup (hget db2 t id2).2.cacheRef id2 = some (some t.nextAddr)) := by
  have hne : s.nextAddr ≠ a := fun h => absurd (h ▸ hlt) (lt_irrefl _)
  refine ⟨⟨?_, ?_⟩, ?_, ?_⟩
  · simp [hget, hhit, halloc]
  · intro v
    simp [hget, hread, hmutate, halloc, heapAt, hhit, alookup_aset_self,
      alookup_aset_ne _ _ _ _ hne]
  · simp [hget, hmiss, hdb, halloc]
  · simp [hget, hmiss, hdb, halloc, alookup_aset_self]

/-- C8 witness: the defensive-copy theorem applied at a concrete cached state
(hit path) and the empty state (miss path). -/
theorem C8_defensive_copy_witness :
    let s : HState := ⟨[(0, ⟨"x", 5⟩)], [("x", some 0)], 1⟩
    let db : String → Option Nat := fun _ => none
    let db2 : String → Option Nat := fun i => if i = "y" then some 7 else none
    (alookup s.cacheRef "x" = some (some 0))
    ∧ (0 < s.nextAddr)
    ∧ (alookup (⟨[], [], 0⟩ : HState).cacheRef "y" = none)
    ∧ (db2 "y" = some 7)
    ∧ (((hget db s "x").1 = some s.nextAddr
        ∧ ∀ v, hread db (hmutate (hget db s "x").2 s.nextAddr v) "x"
            = hread db (hget db s "x").2 "x")
       ∧ ((hget db2 ⟨[], [], 0⟩ "y").1 = some (0 : Nat)
          ∧ alookup (hget db2 ⟨[], [], 0⟩ "y").2.cacheRef "y" = some (some 0))) := by
  intro s db db2
  refine ⟨rfl, Nat.zero_lt_one, rfl, rfl, ?_⟩
  exact C8_defensive_copy db s "x" 0 db2 ⟨[], [], 0⟩ "y" 7 rfl Nat.zero_lt_one rfl rfl


/-- C9 counterexample: in the first implementation, inserting the mixed-type
array `[A:x, B:y]` buffers the `B` entity under type `A` and consults type
`A`'s maps for the duplicate checks, but the caching write for the `B` entity
goes to type `B`'s own cache map (`this.cache(entity)` keys by each entity's
own constructor), not to a cache map selected from the first element. -/
theorem C9_counterexample :
    (insertWC [⟨"A", "x", 1⟩, ⟨"B", "y", 3⟩] initState).map
        (fun s' => (lookup2 s'.cacheMap "B" "y", lookup2 s'.cacheMap "A" "y",
                    lookup2 s'.insertMap "A" "y", lookup2 s'.insertMap "B" "y"))
      = some (some (some ⟨"B", "y", 3⟩), none, some ⟨"B", "y", 3⟩, none) := by
  rfl

theorem insert_pair_eq (a b : Entity) (s : SState) (hid : a.id ≠ b.id)
    (ha1 : lookup2 s.insertMap a.typeName a.id = none)
    (ha2 : lookup2 s.upsertMap a.typeName a.id = none)
    (ha3 : lookup2 s.cacheMap a.typeName a.id = none)
    (hb1 : lookup2 s.insertMap a.typeName b.id = none)
    (hb2 : lookup2 s.upsertMap a.typeName b.id = none)
    (hb3 : lookup2 s.cacheMap a.typeName b.id = none) :
    insertWC [a, b] s = some
      { deferMap := s.deferMap,
        cacheMap := set2 (set2 (ensure s.cacheMap a.typeName []) a.typeName a.id (some a))
          b.typeName b.id (some b),
        classes := s.classes,
        insertMap := set2 (set2 (ensure s.insertMap a.typeName []) a.typeName a.id a)
          a.typeName b.id b,
        upsertMap := ensure s.upsertMap a.typeName [],
        events := s.events } := by
  unfold insertWC
  simp only [insertLoop, cacheEnt, lookup2_set2, lookup2_ensure, ha1, ha2, ha3,
    eq_self_iff_true, if_true, if_neg hid, hb1, hb2, hb3]
  simp

theorem v2_insert_pair_eq (a b : Entity) (t : V2.St) (hid : a.id ≠ b.id)
    (ta1 : lookup2 t.insertList a.typeName a.id = none)
    (ta2 : lookup2 t.upsertList a.typeName a.id = none)
    (ta3 : lookup2 t.cacheMap a.typeName a.id = none)
    (tb1 : lookup2 t.insertList a.typeName b.id = none)
    (tb2 : lookup2 t.upsertList a.typeName b.id = none)
    (tb3 : lookup2 t.cacheMap a.typeName b.id = none) :
    V2.insert [a, b] t = some
      { deferList :=
          aset (aset (ensure t.deferList a.typeName [])
              a.typeName
              (sdelete (readSet (ensure t.deferList a.typeName []) a.typeName) a.id))
            a.typeName
            (sdelete
              (readSet
                (aset (ensure t.deferList a.typeName []) a.typeName
                  (sdelete (readSet (ensure t.deferList a.typeName []) a.typeName) a.id))
                a.typeName)
              b.id),
        cacheMap := set2 (set2 (ensure t.cacheMap a.typeName []) a.typeName a.id (some a))
          a.typeName b.id (some b),
        classes := t.classes,
        insertList := set2 (set2 (ensure t.insertList a.typeName []) a.typeName a.id a)
          a.typeName b.id b,
        upsertList := ensure t.upsertList a.typeName [],
        events := t.events } := by
  unfold V2.insert
  simp only [V2.insertLoop, lookup2_set2, lookup2_ensure, ta1, ta2, ta3,
    eq_self_iff_true, if_true, if_neg hid, tb1, tb2, tb3]
  simp

theorem upsert_pair_eq (a b : Entity) (s : SState)
    (ha : lookup2 s.insertMap a.typeName a.id = none)
    (hb : lookup2 s.insertMap a.typeName b.id = none) :
    upsert [a, b] s =
      { deferMap := s.deferMap,
        cacheMap := set2 (set2 s.cacheMap a.typeName a.id (some a)) b.typeName b.id (some b),
        classes := s.classes,
        insertMap := ensure s.insertMap a.typeName [],
        upsertMap := set2 (set2 (ensure s.upsertMap a.typeName []) a.typeName a.id a)
          a.typeName b.id b,
        events := s.events } := by
  unfold upsert
  simp only [upsertLoop, cacheEnt, lookup2_ensure, ha, hb, Option.isSome_none,
    Bool.false_eq_true, if_false]

theorem v2_upsert_pair_eq (a b : Entity) (t : V2.St)
    (ta : lookup2 t.insertList a.typeName a.id = none)
    (tb : lookup2 t.insertList a.typeName b.id = none) :
    V2.upsert [a, b] t =
      { deferList :=
          aset (aset (ensure t.deferList a.typeName [])
              a.typeName
              (sdelete (readSet (ensure t.deferList a.typeName []) a.typeName) a.id))
            a.typeName
            (sdelete
              (readSet
                (aset (ensure t.deferList a.typeName []) a.typeName
                  (sdelete (readSet (ensure t.deferList a.typeName []) a.typeName) a.id))
                a.typeName)
              b.id),
        cacheMap := set2 (set2 (ensure t.cacheMap a.typeName []) a.typeName a.id (some a))
          a.typeName b.id (some b),
        classes := t.classes,
        insertList := ensure t.insertList a.typeName [],
        upsertList := set2 (set2 (ensure t.upsertList a.typeName []) a.typeName a.id a)
          a.typeName b.id b,
        events := t.events } := by
  unfold V2.upsert
  simp only [V2.upsertLoop, lookup2_ensure, ta, tb, Option.isSome_none,
    Bool.false_eq_true, if_false]

/-- C9 amended: for a non-empty array, both `insert` and `upsert` select the
write buffer and the duplicate-id checks (insert buffer, upsert buffer and,
for `insert`, the cache lookup) solely from the first element's constructor
name, and every entity — including one of a different type — is buffered
under the first entity's type keyed by its own id, leaving the other type's
buffers untouched; however, the caching write differs between the variants:
the first implementation caches each entity under its own constructor's cache
map, while the second caches it under the first element's type. -/
theorem C9_first_element_selection (a b : Entity) (s : SState) (t : V2.St)
    (hne : b.typeName ≠ a.typeName) (hid : a.id ≠ b.id)
    (ha1 : lookup2 s.insertMap a.typeName a.id = none)
    (ha2 : lookup2 s.upsertMap a.typeName a.id = none)
    (ha3 : lookup2 s.cacheMap a.typeName a.id = none)
    (hb1 : lookup2 s.insertMap a.typeName b.id = none)
    (hb2 : lookup2 s.upsertMap a.typeName b.id = none)
    (hb3 : lookup2 s.cacheMap a.typeName b.id = none)
    (ta1 : lookup2 t.insertList a.typeName a.id = none)
    (ta2 : lookup2 t.upsertList a.typeName a.id = none)
    (ta3 : lookup2 t.cacheMap a.typeName a.id = none)
    (tb1 : lookup2 t.insertList a.typeName b.id = none)
    (tb2 : lookup2 t.upsertList a.typeName b.id = none)
    (tb3 : lookup2 t.cacheMap a.typeName b.id = none) :
    (∃ s', insertWC [a, b] s = some s'
      ∧ lookup2 s'.insertMap a.typeName a.id = some a
      ∧ lookup2 s'.insertMap a.typeName b.id = some b
      ∧ lookup2 s'.insertMap b.typeName b.id = lookup2 s.insertMap b.typeName b.id
      ∧ lookup2 s'.upsertMap b.typeName b.id = lookup2 s.upsertMap b.typeName b.id
      ∧ lookup2 s'.cacheMap b.typeName b.id = some (some b))
    ∧ (∃ t', V2.insert [a, b] t = some t'
      ∧ lookup2 t'.insertList a.typeName a.id = some a
      ∧ lookup2 t'.insertList a.typeName b.id = some b
      ∧ lookup2 t'.insertList b.typeName b.id = lookup2 t.insertList b.typeName b.id
      ∧ lookup2 t'.cacheMap a.typeName b.id = some (some b)
      ∧ lookup2 t'.cacheMap b.typeName b.id = lookup2 t.cacheMap b.typeName b.id)
    ∧ (lookup2 (upsert [a, b] s).upsertMap a.typeName a.id = some a
      ∧ lookup2 (upsert [a, b] s).upsertMap a.typeName b.id = some b
      ∧ lookup2 (upsert [a, b] s).upsertMap b.typeName b.id
          = lookup2 s.upsertMap b.typeName b.id
      ∧ lookup2 (upsert [a, b] s).cacheMap b.typeName b.id = some (some b)
      ∧ lookup2 (upsert [a, b] s).cacheMap a.typeName b.id
          = lookup2 s.cacheMap a.typeName b.id)
    ∧ (lookup2 (V2.upsert [a, b] t).upsertList a.typeName a.id = some a
      ∧ lookup2 (V2.upsert [a, b] t).upsertList a.typeName b.id = some b
      ∧ lookup2 (V2.upsert [a, b] t).upsertList b.typeName b.id
          = lookup2 t.upsertList b.typeName b.id
      ∧ lookup2 (V2.upsert [a, b] t).cacheMap a.typeName b.id = some (some b)
      ∧ lookup2 (V2.upsert [a, b] t).cacheMap b.typeName b.id
          = lookup2 t.cacheMap b.typeName b.id) := by
  refine ⟨?_, ?_, ?_, ?_⟩
  · refine ⟨_, insert_pair_eq a b s hid ha1 ha2 ha3 hb1 hb2 hb3, ?_, ?_, ?_, ?_, ?_⟩
    · simp [lookup2_set2, if_neg (Ne.symm hid)]
    · simp [lookup2_set2, if_neg hne]
    · simp [lookup2_set2, if_neg hne, lookup2_ensure, Ne.symm hne]
    · simp [lookup2_ensure, Ne.symm hne]
    · simp [lookup2_set2]
  · refine ⟨_, v2_insert_pair_eq a b t hid ta1 ta2 ta3 tb1 tb2 tb3, ?_, ?_, ?_, ?_, ?_⟩
    · simp [lookup2_set2, if_neg (Ne.symm hid)]
    · simp [lookup2_set2]
    · simp [lookup2_set2, Ne.symm hne, lookup2_ensure]
    · simp [lookup2_set2]
    · simp [lookup2_set2, Ne.symm hne, lookup2_ensure]
  · rw [upsert_pair_eq a b s ha1 hb1]
    refine ⟨?_, ?_, ?_, ?_, ?_⟩
    · simp [lookup2_set2, if_neg (Ne.symm hid)]
    · simp [lookup2_set2]
    · simp [lookup2_set2, Ne.symm hne, lookup2_ensure]
    · simp [lookup2_set2]
    · simp [lookup2_set2, if_neg hne, if_neg hid]
  · rw [v2_upsert_pair_eq a b t ta1 tb1]
    refine ⟨?_, ?_, ?_, ?_, ?_⟩
    · simp [lookup2_set2, if_neg (Ne.symm hid)]
    · simp [lookup2_set2]
    · simp [lookup2_set2, Ne.symm hne, lookup2_ensure]
    · simp [lookup2_set2]
    · simp [lookup2_set2, Ne.symm hne, lookup2_ensure]

/-- C9 witness: the first-element selection theorem applied to the concrete
mixed-type array `[A:x, B:y]` for both `insert` and `upsert` against the
empty states of both implementations. -/
theorem C9_first_element_selection_witness :
    ((⟨"B", "y", 3⟩ : Entity).typeName ≠ ("A" : String))
    ∧ ((⟨"A", "x", 1⟩ : Entity).id ≠ ("y" : String))
    ∧ ((∃ s', insertWC [⟨"A", "x", 1⟩, ⟨"B", "y", 3⟩] initState = some s'
        ∧ lookup2 s'.insertMap "A" "x" = some ⟨"A", "x", 1⟩
        ∧ lookup2 s'.insertMap "A" "y" = some ⟨"B", "y", 3⟩
        ∧ lookup2 s'.insertMap "B" "y" = lookup2 initState.insertMap "B" "y"
        ∧ lookup2 s'.upsertMap "B" "y" = lookup2 initState.upsertMap "B" "y"
        ∧ lookup2 s'.cacheMap "B" "y" = some (some ⟨"B", "y", 3⟩))
      ∧ (∃ t', V2.insert [⟨"A", "x", 1⟩, ⟨"B", "y", 3⟩] V2.initSt = some t'
        ∧ lookup2 t'.insertList "A" "x" = some ⟨"A", "x", 1⟩
        ∧ lookup2 t'.insertList "A" "y" = some ⟨"B", "y", 3⟩
        ∧ lookup2 t'.insertList "B" "y" = lookup2 V2.initSt.insertList "B" "y"
        ∧ lookup2 t'.cacheMap "A" "y" = some (some ⟨"B", "y", 3⟩)
        ∧ lookup2 t'.cacheMap "B" "y" = lookup2 V2.initSt.cacheMap "B" "y")
      ∧ (lookup2 (upsert [⟨"A", "x", 1⟩, ⟨"B", "y", 3⟩] initState).upsertMap "A" "x"
            = some ⟨"A", "x", 1⟩
        ∧ lookup2 (upsert [⟨"A", "x", 1⟩, ⟨"B", "y", 3⟩] initState).upsertMap "A" "y"
            = some ⟨"B", "y", 3⟩
        ∧ lookup2 (upsert [⟨"A", "x", 1⟩, ⟨"B", "y", 3⟩] initState).upsertMap "B" "y"
            = lookup2 initState.upsertMap "B" "y"
        ∧ lookup2 (upsert [⟨"A", "x", 1⟩, ⟨"B", "y", 3⟩] initState).cacheMap "B" "y"
            = some (some ⟨"B", "y", 3⟩)
        ∧ lookup2 (upsert [⟨"A", "x", 1⟩, ⟨"B", "y", 3⟩] initState).cacheMap "A" "y"
            = lookup2 initState.cacheMap "A" "y")
      ∧ (lookup2 (V2.upsert [⟨"A", "x", 1⟩, ⟨"B", "y", 3⟩] V2.initSt).upsertList "A" "x"
            = some ⟨"A", "x", 1⟩
        ∧ lookup2 (V2.upsert [⟨"A", "x", 1⟩, ⟨"B", "y", 3⟩] V2.initSt).upsertList "A" "y"
            = some ⟨"B", "y", 3⟩
        ∧ lookup2 (V2.upsert [⟨"A", "x", 1⟩, ⟨"B", "y", 3⟩] V2.initSt).upsertList "B" "y"
            = lookup2 V2.initSt.upsertList "B" "y"
        ∧ lookup2 (V2.upsert [⟨"A", "x", 1⟩, ⟨"B", "y", 3⟩] V2.initSt).cacheMap "A" "y"
            = some (some ⟨"B", "y", 3⟩)
        ∧ lookup2 (V2.upsert [⟨"A", "x", 1⟩, ⟨"B", "y", 3⟩] V2.initSt).cacheMap "B" "y"
            = lookup2 V2.initSt.cacheMap "B" "y")) := by
  refine ⟨by decide, by decide, ?_⟩
  exact C9_first_element_selection ⟨"A", "x", 1⟩ ⟨"B", "y", 3⟩ initState V2.initSt
    (by decide) (by decide) rfl rfl rfl rfl rfl rfl rfl rfl rfl rfl rfl rfl
theorem flushTrace_upsert_filter_empty (l : List String) (im um : BufMap) (T : String)
    (h : readL um T = []) :
    (flushTrace l im um none).filter (isUpsertCallOf T) = [] := by
  induction l generalizing im um with
  | nil => rfl
  | cons n rest ih =>
      simp only [flushTrace, List.filter_append, callsFor]
      have h1 : ∀ es, isUpsertCallOf T (StoreEvent.insertCall n es) = false := fun _ => rfl
      by_cases hn : n = T
      · subst hn
        simp only [h, if_pos rfl]
        have hrec : readL (aset um n []) n = [] := readL_aset_self um n []
        by_cases hi : readL im n = [] <;>
          simp [hi, h1, ih _ _ hrec]
      · have hrec : readL (aset um n []) T = readL um T := readL_aset_ne um n T [] hn
        by_cases hi : readL im n = [] <;> by_cases hu : readL um n = [] <;>
          simp [hi, hu, h1, isUpsertCallOf, hn, ih _ _ (hrec.trans h)]

theorem flushTrace_upsert_filter (l : List String) (im um : BufMap) (T : String)
    (hT : T ∈ l) (hne : readL um T ≠ []) :
    (flushTrace l im um none).filter (isUpsertCallOf T)
      = [StoreEvent.upsertCall T ((readL um T).map Prod.snd)] := by
  induction l generalizing im um with
  | nil => cases hT
  | cons n rest ih =>
      simp only [flushTrace, List.filter_append, callsFor]
      have h1 : ∀ es, isUpsertCallOf T (StoreEvent.insertCall n es) = false := fun _ => rfl
      by_cases hn : n = T
      · subst hn
        have hrec : readL (aset um n []) n = [] := readL_aset_self um n []
        by_cases hi : readL im n = [] <;>
          simp [hi, hne, h1, isUpsertCallOf,
            flushTrace_upsert_filter_empty rest _ _ n hrec]
      · have hT' : T ∈ rest := by
          cases hT with
          | head => exact absurd rfl hn
          | tail _ ht => exact ht
        have hrec : readL (aset um n []) T = readL um T := readL_aset_ne um n T [] hn
        have hrec2 : readL (aset um n []) T ≠ [] := by rw [hrec]; exact hne
        have hihx := ih (aset im n []) (aset um n []) hT' hrec2
        rw [hrec] at hihx
        by_cases hi : readL im n = [] <;> by_cases hu : readL um n = [] <;>
          simp [hi, hu, h1, isUpsertCallOf, hn, hihx]

theorem readL_set2_self {α : Type} (m : List (String × List (String × α))) (n i : String)
    (v : α) : readL (set2 m n i v) n = aset (readL m n) i v := by
  simp [set2, readL_aset_self]

theorem upsert_single_eq (e : Entity) (s : SState) :
    upsert [e] s =
      (if (lookup2 s.insertMap e.typeName e.id).isSome then
        { s with insertMap := ensure s.insertMap e.typeName [],
                 upsertMap := ensure s.upsertMap e.typeName [],
                 cacheMap := set2 s.cacheMap e.typeName e.id (some e) }
      else
        { s with insertMap := ensure s.insertMap e.typeName [],
                 upsertMap := set2 (ensure s.upsertMap e.typeName []) e.typeName e.id e,
                 cacheMap := set2 s.cacheMap e.typeName e.id (some e) }) := by
  unfold upsert
  simp only [upsertLoop, cacheEnt, lookup2_ensure]

/-- C6: repeated `upsert` of the same id before a flush coalesces — the upsert
buffer holds exactly one entry for that id carrying the latest value, and the
next flush issues exactly one bulk upsert call for that type, containing only
the latest value for the id. -/
theorem C6_upsert_coalesce (order : List String) (T i : String) (e₁ e₂ : Entity)
    (s : SState)
    (ht1 : e₁.typeName = T) (hi1 : e₁.id = i) (ht2 : e₂.typeName = T) (hi2 : e₂.id = i)
    (hins : lookup2 s.insertMap T i = none)
    (hup : readL s.upsertMap T = [])
    (hord : T ∈ order) :
    readL (upsert [e₂] (upsert [e₁] s)).upsertMap T = [(i, e₂)]
    ∧ (flush order none (upsert [e₂] (upsert [e₁] s))).events
        = (upsert [e₂] (upsert [e₁] s)).events
          ++ flushTrace order (upsert [e₂] (upsert [e₁] s)).insertMap
              (upsert [e₂] (upsert [e₁] s)).upsertMap none
    ∧ (flushTrace order (upsert [e₂] (upsert [e₁] s)).insertMap
        (upsert [e₂] (upsert [e₁] s)).upsertMap none).filter (isUpsertCallOf T)
        = [StoreEvent.upsertCall T [e₂]] := by
  have h1 := upsert_single_eq e₁ s
  rw [ht1, hi1] at h1
  rw [hins] at h1
  simp only [Option.isSome_none, Bool.false_eq_true, if_false] at h1
  rw [h1]
  have h2 := upsert_single_eq e₂
    { s with insertMap := ensure s.insertMap T [],
             upsertMap := set2 (ensure s.upsertMap T []) T i e₁,
             cacheMap := set2 s.cacheMap T i (some e₁) }
  rw [ht2, hi2] at h2
  simp only [lookup2_ensure, hins, Option.isSome_none, Bool.false_eq_true, if_false] at h2
  rw [h2]
  have hread : readL (set2 (ensure (set2 (ensure s.upsertMap T []) T i e₁) T [])
      T i e₂) T = [(i, e₂)] := by
    rw [readL_set2_self, readL_ensure, readL_set2_self, readL_ensure, hup]
    simp [aset]
  refine ⟨hread, flushLoop_events order none _, ?_⟩
  rw [flushTrace_upsert_filter order _ _ T hord (by rw [hread]; simp)]
  rw [hread]
  rfl

/-- C6 witness: the coalescing theorem applied to two concrete upserts of id
`x` with values 1 and 2 from the empty state. -/
theorem C6_upsert_coalesce_witness :
    (lookup2 initState.insertMap "A" "x" = none)
    ∧ (readL initState.upsertMap "A" = [])
    ∧ ("A" ∈ ["A"])
    ∧ (readL (upsert [⟨"A", "x", 2⟩] (upsert [⟨"A", "x", 1⟩] initState)).upsertMap "A"
        = [("x", ⟨"A", "x", 2⟩)]
      ∧ (flush ["A"] none (upsert [⟨"A", "x", 2⟩] (upsert [⟨"A", "x", 1⟩] initState))).events
          = (upsert [⟨"A", "x", 2⟩] (upsert [⟨"A", "x", 1⟩] initState)).events
            ++ flushTrace ["A"]
                (upsert [⟨"A", "x", 2⟩] (upsert [⟨"A", "x", 1⟩] initState)).insertMap
                (upsert [⟨"A", "x", 2⟩] (upsert [⟨"A", "x", 1⟩] initState)).upsertMap none
      ∧ (flushTrace ["A"]
            (upsert [⟨"A", "x", 2⟩] (upsert [⟨"A", "x", 1⟩] initState)).insertMap
            (upsert [⟨"A", "x", 2⟩] (upsert [⟨"A", "x", 1⟩] initState)).upsertMap none).filter
            (isUpsertCallOf "A")
          = [StoreEvent.upsertCall "A" [⟨"A", "x", 2⟩]]) := by
  refine ⟨rfl, rfl, by simp, ?_⟩
  exact C6_upsert_coalesce ["A"] "A" "x" ⟨"A", "x", 1⟩ ⟨"A", "x", 2⟩ initState
    rfl rfl rfl rfl rfl rfl (by simp)
theorem defer_init_eq (T i : String) :
    defer T i none initState =
      { deferMap := [(T, ⟨[i], RelSpec.nil⟩)], cacheMap := [], classes := [T],
        insertMap := [], upsertMap := [], events := [] } := by
  simp [defer, initState, ensure, alookup, aset, sadd]

theorem ensure_of_some {α : Type} (m : List (String × α)) (n : String) (x e : α)
    (h : alookup m n = some x) : ensure m n e = m := by
  simp only [ensure, h, Option.getD_some]
  exact aset_of_alookup_eq m n x h

theorem c5_markAbsent_eq (T i : String) :
    markAbsent T [i]
      { deferMap := [(T, ⟨[i], RelSpec.nil⟩)], cacheMap := [], classes := [T],
        insertMap := [], upsertMap := [], events := [] } =
      { deferMap := [(T, ⟨[i], RelSpec.nil⟩)], cacheMap := [(T, [(i, none)])], classes := [T],
        insertMap := [], upsertMap := [], events := [] } := by
  simp [markAbsent, ensure, alookup, aset, lookup2, set2, readL]


theorem c5_load_eq (order : List String) (db : Db) (T i : String) (hdb : db T i = none) :
    load order db T
      { deferMap := [(T, ⟨[i], RelSpec.nil⟩)], cacheMap := [], classes := [T],
        insertMap := [], upsertMap := [], events := [] } =
      { deferMap := [],
        cacheMap := [(T, [(i, none)])],
        classes := [T],
        insertMap := (flushLoop order (some T)
          { deferMap := [(T, ⟨[i], RelSpec.nil⟩)], cacheMap := [(T, [(i, none)])],
            classes := [T], insertMap := [], upsertMap := [], events := [] }).insertMap,
        upsertMap := (flushLoop order (some T)
          { deferMap := [(T, ⟨[i], RelSpec.nil⟩)], cacheMap := [(T, [(i, none)])],
            classes := [T], insertMap := [], upsertMap := [], events := [] }).upsertMap,
        events := [StoreEvent.findCall T [i] RelSpec.nil] } := by
  simp only [load, alookup_ensure, alookup, eq_self_iff_true, if_true, Option.getD_some]
  simp only [show ¬([i] = ([] : List String)) from by simp, if_false]
  have hens : ensure [(T, (⟨[i], RelSpec.nil⟩ : DeferData))] T ⟨[], RelSpec.nil⟩
      = [(T, (⟨[i], RelSpec.nil⟩ : DeferData))] :=
    ensure_of_some [(T, (⟨[i], RelSpec.nil⟩ : DeferData))] T ⟨[i], RelSpec.nil⟩
      ⟨[], RelSpec.nil⟩ (by simp [alookup])
  simp only [hens]
  rw [c5_markAbsent_eq]
  simp only [find, flush]
  simp only [flushLoop_deferMap, flushLoop_cacheMap, flushLoop_classes, flushLoop_events]
  simp only [alookup_ensure, alookup, eq_self_iff_true, if_true, Option.getD_some]
  have htr : flushTrace order [] [] (some T) = [] :=
    flushTrace_empty _ _ _ _ (fun _ => rfl) (fun _ => rfl)
  simp only [storeFind, List.filterMap_cons, List.filterMap_nil, hdb, Option.map_none,
    cacheList, List.foldl_nil, hens, htr,
    show mergeRelataions RelSpec.nil RelSpec.nil = RelSpec.nil from rfl]
  simp [adelete]

theorem c5_v1_resolve (order : List String) (db : Db) (T i : String) (hdb : db T i = none) :
    (getById order db T i (defer T i none initState)).1 = none
    ∧ lookup2 (getById order db T i (defer T i none initState)).2.cacheMap T i = some none
    ∧ alookup (getById order db T i (defer T i none initState)).2.deferMap T = none
    ∧ (getById order db T i (defer T i none initState)).2.events
        = [StoreEvent.findCall T [i] RelSpec.nil] := by
  simp only [defer_init_eq]
  unfold getById
  simp only [c5_load_eq order db T i hdb]
  have hens2 : ensure [(T, [(i, (none : Option Entity))])] T [] = [(T, [(i, none)])] :=
    ensure_of_some [(T, [(i, (none : Option Entity))])] T [(i, none)] [] (by simp [alookup])
  simp only [hens2]
  have hli : alookup [(i, (none : Option Entity))] i = some none := by simp [alookup]
  simp only [lookup2, alookup, eq_self_iff_true, if_true, Option.getD_some,
    Option.bind_some, hli]
  simp [adelete, alookup]

theorem v2_defer_init_eq (T i : String) :
    V2.defer T i V2.initSt =
      { deferList := [(T, [i])], cacheMap := [(T, [])], classes := [T],
        insertList := [], upsertList := [], events := [] } := by
  simp [V2.defer, V2.initSt, ensure, alookup, aset, sadd, lookup2, readSet]

theorem v2_flushLoop_cacheMap_alookup (l : List String) (stop : String) (s : V2.St)
    (k : String) (x : List (String × Option Entity))
    (h : alookup s.cacheMap k = some x) :
    alookup (V2.flushLoop l stop s).cacheMap k = some x := by
  induction l generalizing s with
  | nil => exact h
  | cons n rest ih =>
      simp only [V2.flushLoop]
      have hstep : alookup (ensure s.cacheMap n []) k = some x := by
        by_cases hn : n = k
        · subst hn
          simp [alookup_ensure, h]
        · simp [alookup_ensure, hn, h]
      by_cases hs : stop = n
      · simp only [hs, if_pos rfl]
        exact hstep
      · simp only [hs, if_neg hs]
        exact ih _ hstep

theorem c5_v2_first (order : List String) (db : Db) (T i : String) (hdb : db T i = none) :
    V2.getById order db T i (V2.defer T i V2.initSt)
      = some (none,
        { deferList := [(T, [])],
          cacheMap := set2 (V2.flushLoop order T
            { deferList := [(T, [i])], cacheMap := [(T, [])], classes := [T],
              insertList := [], upsertList := [], events := [] }).cacheMap T i none,
          classes := [T],
          insertList := (V2.flushLoop order T
            { deferList := [(T, [i])], cacheMap := [(T, [])], classes := [T],
              insertList := [], upsertList := [], events := [] }).insertList,
          upsertList := (V2.flushLoop order T
            { deferList := [(T, [i])], cacheMap := [(T, [])], classes := [T],
              insertList := [], upsertList := [], events := [] }).upsertList,
          events := [StoreEvent.findCall T [i] RelSpec.nil] }) := by
  rw [v2_defer_init_eq]
  unfold V2.getById V2.load
  simp only [List.map_cons, List.map_nil]
  simp only [V2.loadLoop]
  have hrs : readSet [(T, [i])] T = [i] := by simp [readSet, alookup]
  simp only [hrs]
  simp only [show ¬([i] = ([] : List String)) from by simp, if_false,
    List.mem_singleton, eq_self_iff_true, if_true]
  simp only [V2.find, V2.flush, storeFind, List.filterMap_cons, List.filterMap_nil, hdb,
    show (Option.map (fun v => (⟨T, i, v⟩ : Entity)) none) = none from rfl, V2.cacheList]
  simp only [v2_flushLoop_deferList, v2_flushLoop_classes, v2_flushLoop_events, hrs]
  have htr : flushTrace order [] [] (some T) = [] :=
    flushTrace_empty _ _ _ _ (fun _ => rfl) (fun _ => rfl)
  simp only [htr, List.nil_append]
  have hal : alookup (V2.flushLoop order T
      { deferList := [(T, [i])], cacheMap := [(T, [])], classes := [T],
        insertList := [], upsertList := [], events := [] }).cacheMap T = some [] :=
    v2_flushLoop_cacheMap_alookup order T _ T [] (by simp [alookup])
  have hens3 := ensure_of_some _ T [] ([] : List (String × Option Entity)) hal
  have hl2 : lookup2 (V2.flushLoop order T
      { deferList := [(T, [i])], cacheMap := [(T, [])], classes := [T],
        insertList := [], upsertList := [], events := [] }).cacheMap T i = none := by
    rw [v2_flushLoop_cacheMap_lookup]
    simp [lookup2, alookup]
  simp only [V2.markAbsent, List.foldl_cons, List.foldl_nil, hens3, hl2,
    Option.isSome_none, Bool.false_eq_true, if_false]
  have hal2 : alookup (set2 (V2.flushLoop order T
      { deferList := [(T, [i])], cacheMap := [(T, [])], classes := [T],
        insertList := [], upsertList := [], events := [] }).cacheMap T i none) T
      = some (aset (readL (V2.flushLoop order T
          { deferList := [(T, [i])], cacheMap := [(T, [])], classes := [T],
            insertList := [], upsertList := [], events := [] }).cacheMap T) i none) := by
    simp [set2, alookup_aset_self]
  have hens4 := ensure_of_some _ T _ ([] : List (String × Option Entity)) hal2
  have hl3 : lookup2 (set2 (V2.flushLoop order T
      { deferList := [(T, [i])], cacheMap := [(T, [])], classes := [T],
        insertList := [], upsertList := [], events := [] }).cacheMap T i none) T i
      = some none := by
    simp [lookup2_set2]
  simp only [hens4, hl3]
  simp [aset]

theorem c5_v2_second (order : List String) (db : Db) (T i : String) (L2 : V2.St)
    (hdefer : L2.deferList = [(T, [])])
    (hclasses : L2.classes = [T])
    (hcl : (alookup L2.cacheMap T).isSome)
    (hmark : lookup2 L2.cacheMap T i = some none) :
    V2.defer T i L2 = L2
    ∧ V2.getById order db T i L2 = some (none, L2) := by
  obtain ⟨x, hx⟩ := Option.isSome_iff_exists.mp hcl
  have hensD : ensure L2.deferList T [] = L2.deferList := by
    rw [hdefer]
    exact ensure_of_some _ _ [] [] (by simp [alookup])
  have hensC : ensure L2.cacheMap T [] = L2.cacheMap := ensure_of_some _ _ x [] hx
  have hsadd : sadd L2.classes T = L2.classes := by
    rw [hclasses]
    simp [sadd]
  constructor
  · unfold V2.defer
    simp only [hensD, hensC, hsadd, hmark, Option.isSome_some, if_true]
  · unfold V2.getById V2.load
    rw [hdefer]
    simp only [List.map_cons, List.map_nil]
    have hrs0 : readSet L2.deferList T = [] := by simp [hdefer, readSet, alookup]
    simp only [V2.loadLoop, hrs0, eq_self_iff_true, if_true]
    simp only [hensC, hmark]

/-- C5 counterexample: in the first implementation, after a deferred id absent
from the store is resolved (leaving the absent marker), a second `defer` of
the same id re-registers it unconditionally, and resolving the second handle
issues one further bulk store query containing that id — `defer` does not
skip ids already resolved into the cache. -/
theorem C5_counterexample :
    let db : Db := fun _ _ => none
    let r1 := deferredValueGet [] db "A" "x" (defer "A" "x" none initState)
    let r2 := deferredValueGet [] db "A" "x" (defer "A" "x" none r1.2)
    r1.1 = none
    ∧ lookup2 r1.2.cacheMap "A" "x" = some none
    ∧ r1.2.events = [StoreEvent.findCall "A" ["x"] RelSpec.nil]
    ∧ r2.2.events = r1.2.events ++ [StoreEvent.findCall "A" ["x"] RelSpec.nil] := by
  exact ⟨rfl, rfl, rfl, rfl⟩

/-- Intermediate state of the second implementation after the first
resolution of a deferred id absent from the store (proof helper). -/
def c5Mid (order : List String) (T i : String) : V2.St :=
  { deferList := [(T, [])],
    cacheMap := set2 (V2.flushLoop order T
      { deferList := [(T, [i])], cacheMap := [(T, [])], classes := [T],
        insertList := [], upsertList := [], events := [] }).cacheMap T i none,
    classes := [T],
    insertList := (V2.flushLoop order T
      { deferList := [(T, [i])], cacheMap := [(T, [])], classes := [T],
        insertList := [], upsertList := [], events := [] }).insertList,
    upsertList := (V2.flushLoop order T
      { deferList := [(T, [i])], cacheMap := [(T, [])], classes := [T],
        insertList := [], upsertList := [], events := [] }).upsertList,
    events := [StoreEvent.findCall T [i] RelSpec.nil] }

/-- C5 amended: resolving a deferred id that does not exist in the store
leaves an explicit absent cache entry for that (type, id), returns not-found,
and clears the type's deferred entry, in both implementations; but only the
second implementation skips a second `defer` of the already-resolved id, so
that resolving its handle issues no further store query — the first
implementation re-registers the id unconditionally and its resolution issues
one further bulk query containing the id. -/
theorem C5_absent_resolution (order : List String) (db : Db) (T i : String)
    (hdb : db T i = none) :
    ((deferredValueGet order db T i (defer T i none initState)).1 = none
     ∧ lookup2 (deferredValueGet order db T i (defer T i none initState)).2.cacheMap T i
         = some none
     ∧ alookup (deferredValueGet order db T i (defer T i none initState)).2.deferMap T = none
     ∧ (deferredValueGet order db T i (defer T i none initState)).2.events
         = [StoreEvent.findCall T [i] RelSpec.nil])
    ∧ (∃ L2, V2.deferredValueGet order db T i (V2.defer T i V2.initSt) = some (none, L2)
        ∧ lookup2 L2.cacheMap T i = some none
        ∧ V2.defer T i L2 = L2
        ∧ V2.deferredValueGet order db T i (V2.defer T i L2) = some (none, L2)) := by
  have hdefer : (c5Mid order T i).deferList = [(T, [])] := rfl
  have hclasses : (c5Mid order T i).classes = [T] := rfl
  have hcl : (alookup (c5Mid order T i).cacheMap T).isSome := by
    simp [c5Mid, set2, alookup_aset_self]
  have hmark : lookup2 (c5Mid order T i).cacheMap T i = some none := by
    simp [c5Mid, lookup2_set2]
  have hsecond := c5_v2_second order db T i (c5Mid order T i) hdefer hclasses hcl hmark
  refine ⟨c5_v1_resolve order db T i hdb, c5Mid order T i,
    c5_v2_first order db T i hdb, hmark, hsecond.1, ?_⟩
  rw [hsecond.1]
  exact hsecond.2

/-- C5 witness: the absent-resolution theorem applied to type `A`, id `x` and
the empty store. -/
theorem C5_absent_resolution_witness :
    ((fun (_ _ : String) => (none : Option Nat)) "A" "x" = none)
    ∧ (deferredValueGet [] (fun _ _ => none) "A" "x"
        (defer "A" "x" none initState)).1 = none := by
  exact ⟨rfl, (C5_absent_resolution [] (fun _ _ => none) "A" "x" rfl).1.1⟩
theorem alookup_append_right {κ α : Type} [DecidableEq κ] (m l : List (κ × α)) (k : κ)
    (h : alookup m k = none) : alookup (m ++ l) k = alookup l k := by
  induction m with
  | nil => rfl
  | cons p rest ih =>
      rcases p with ⟨pk, pv⟩
      by_cases hk : pk = k
      · subst hk
        simp [alookup] at h
      · simp only [alookup, if_neg hk] at h
        simp [List.cons_append, alookup, hk, ih h]

theorem aset_append_right {κ α : Type} [DecidableEq κ] (m l : List (κ × α)) (k : κ) (v : α)
    (h : alookup m k = none) : aset (m ++ l) k v = m ++ aset l k v := by
  induction m with
  | nil => rfl
  | cons p rest ih =>
      rcases p with ⟨pk, pv⟩
      by_cases hk : pk = k
      · subst hk
        simp [alookup] at h
      · simp only [alookup, if_neg hk] at h
        simp [List.cons_append, aset, hk, ih h]

theorem adelete_append_right {κ α : Type} [DecidableEq κ] (m l : List (κ × α)) (k : κ)
    (h : alookup m k = none) : adelete (m ++ l) k = m ++ adelete l k := by
  induction m with
  | nil => rfl
  | cons p rest ih =>
      rcases p with ⟨pk, pv⟩
      by_cases hk : pk = k
      · subst hk
        simp [alookup] at h
      · simp only [alookup, if_neg hk] at h
        simp [List.cons_append, adelete, hk, ih h]

theorem aset_of_alookup_none {κ α : Type} [DecidableEq κ] (m : List (κ × α)) (k : κ) (v : α)
    (h : alookup m k = none) : aset m k v = m ++ [(k, v)] := by
  induction m with
  | nil => rfl
  | cons p rest ih =>
      rcases p with ⟨pk, pv⟩
      by_cases hk : pk = k
      · subst hk
        simp [alookup] at h
      · simp only [alookup, if_neg hk] at h
        simp [aset, hk, ih h]

theorem deferFold_cacheMap (T : String) (ids : List String) (s : SState) :
    (ids.foldl (fun t x => defer T x none t) s).cacheMap = s.cacheMap := by
  induction ids generalizing s with
  | nil => rfl
  | cons x rest ih => simp only [List.foldl_cons]; rw [ih]; rfl

theorem deferFold_insertMap (T : String) (ids : List String) (s : SState) :
    (ids.foldl (fun t x => defer T x none t) s).insertMap = s.insertMap := by
  induction ids generalizing s with
  | nil => rfl
  | cons x rest ih => simp only [List.foldl_cons]; rw [ih]; rfl

theorem deferFold_upsertMap (T : String) (ids : List String) (s : SState) :
    (ids.foldl (fun t x => defer T x none t) s).upsertMap = s.upsertMap := by
  induction ids generalizing s with
  | nil => rfl
  | cons x rest ih => simp only [List.foldl_cons]; rw [ih]; rfl

theorem deferFold_events (T : String) (ids : List String) (s : SState) :
    (ids.foldl (fun t x => defer T x none t) s).events = s.events := by
  induction ids generalizing s with
  | nil => rfl
  | cons x rest ih => simp only [List.foldl_cons]; rw [ih]; rfl

theorem defer_step_deferMap (T x : String) (t : SState) (m : List (String × DeferData))
    (p : List String) (hm : t.deferMap = m ++ [(T, ⟨p, RelSpec.nil⟩)])
    (hmT : alookup m T = none) (hx : x ∉ p) :
    (defer T x none t).deferMap = m ++ [(T, ⟨p ++ [x], RelSpec.nil⟩)] := by
  have hl : alookup t.deferMap T = some ⟨p, RelSpec.nil⟩ := by
    rw [hm, alookup_append_right _ _ _ hmT]
    simp [alookup]
  unfold defer
  simp only [ensure_of_some _ _ _ _ hl, hl, Option.getD_some]
  rw [hm, aset_append_right _ _ _ _ hmT]
  simp [aset, sadd, hx]

theorem deferFold_deferMap (T : String) (ids : List String) :
    ∀ (p : List String) (t : SState) (m : List (String × DeferData)),
    t.deferMap = m ++ [(T, ⟨p, RelSpec.nil⟩)] → alookup m T = none →
    (p ++ ids).Nodup →
    (ids.foldl (fun u x => defer T x none u) t).deferMap
      = m ++ [(T, ⟨p ++ ids, RelSpec.nil⟩)] := by
  induction ids with
  | nil =>
      intro p t m hm hmT _
      simpa using hm
  | cons x rest ih =>
      intro p t m hm hmT hnd
      simp only [List.foldl_cons]
      have hx : x ∉ p := by
        intro hxp
        exact ((List.nodup_append.mp hnd).2.2 hxp) (List.mem_cons_self x rest)
      have hstep := defer_step_deferMap T x t m p hm hmT hx
      have hnd' : ((p ++ [x]) ++ rest).Nodup := by
        rw [List.append_assoc]
        simpa using hnd
      have hres := ih (p ++ [x]) (defer T x none t) m hstep hmT hnd'
      simpa using hres

theorem deferFold_deferMap_entry (T : String) (ids : List String) (s : SState)
    (hd : alookup s.deferMap T = none) (hnd : ids.Nodup) (hne : ids ≠ []) :
    (ids.foldl (fun u x => defer T x none u) s).deferMap
      = s.deferMap ++ [(T, ⟨ids, RelSpec.nil⟩)] := by
  cases ids with
  | nil => exact absurd rfl hne
  | cons x rest =>
      simp only [List.foldl_cons]
      have h1 : (defer T x none s).deferMap = s.deferMap ++ [(T, ⟨[x], RelSpec.nil⟩)] := by
        unfold defer
        have he : ensure s.deferMap T ⟨[], RelSpec.nil⟩
            = s.deferMap ++ [(T, ⟨[], RelSpec.nil⟩)] := by
          simp [ensure, hd, aset_of_alookup_none _ _ _ hd]
        simp only [he]
        have hl : alookup (s.deferMap ++ [(T, (⟨[], RelSpec.nil⟩ : DeferData))]) T
            = some ⟨[], RelSpec.nil⟩ := by
          rw [alookup_append_right _ _ _ hd]
          simp [alookup]
        simp only [hl, Option.getD_some]
        rw [aset_append_right _ _ _ _ hd]
        simp [aset, sadd]
      exact deferFold_deferMap T rest [x] _ s.deferMap h1 hd (by simpa using hnd)

theorem markAbsent_deferMap (T : String) (ids : List String) (t : SState) :
    (markAbsent T ids t).deferMap = t.deferMap := by
  unfold markAbsent
  generalize hu : ({ t with cacheMap := ensure t.cacheMap T [] } : SState) = u
  have hud : u.deferMap = t.deferMap := by rw [← hu]
  clear hu
  induction ids generalizing u with
  | nil => simpa using hud
  | cons x rest ih =>
      simp only [List.foldl_cons]
      by_cases h : (lookup2 u.cacheMap T x).isSome
      · simp only [h, if_true]
        exact ih u hud
      · simp only [h, if_false]
        exact ih _ hud

theorem markAbsent_events (T : String) (ids : List String) (t : SState) :
    (markAbsent T ids t).events = t.events := by
  unfold markAbsent
  generalize hu : ({ t with cacheMap := ensure t.cacheMap T [] } : SState) = u
  have hud : u.events = t.events := by rw [← hu]
  clear hu
  induction ids generalizing u with
  | nil => simpa using hud
  | cons x rest ih =>
      simp only [List.foldl_cons]
      by_cases h : (lookup2 u.cacheMap T x).isSome
      · simp only [h, if_true]
        exact ih u hud
      · simp only [h, if_false]
        exact ih _ hud

theorem markAbsent_insertMap (T : String) (ids : List String) (t : SState) :
    (markAbsent T ids t).insertMap = t.insertMap := by
  unfold markAbsent
  generalize hu : ({ t with cacheMap := ensure t.cacheMap T [] } : SState) = u
  have hud : u.insertMap = t.insertMap := by rw [← hu]
  clear hu
  induction ids generalizing u with
  | nil => simpa using hud
  | cons x rest ih =>
      simp only [List.foldl_cons]
      by_cases h : (lookup2 u.cacheMap T x).isSome
      · simp only [h, if_true]
        exact ih u hud
      · simp only [h, if_false]
        exact ih _ hud

theorem markAbsent_upsertMap (T : String) (ids : List String) (t : SState) :
    (markAbsent T ids t).upsertMap = t.upsertMap := by
  unfold markAbsent
  generalize hu : ({ t with cacheMap := ensure t.cacheMap T [] } : SState) = u
  have hud : u.upsertMap = t.upsertMap := by rw [← hu]
  clear hu
  induction ids generalizing u with
  | nil => simpa using hud
  | cons x rest ih =>
      simp only [List.foldl_cons]
      by_cases h : (lookup2 u.cacheMap T x).isSome
      · simp only [h, if_true]
        exact ih u hud
      · simp only [h, if_false]
        exact ih _ hud

theorem markFold_preserves (T : String) (ids : List String) (y z : String) :
    ∀ u : SState, (lookup2 u.cacheMap y z).isSome →
    (lookup2 (ids.foldl
      (fun t i => if (lookup2 t.cacheMap T i).isSome then t
                  else { t with cacheMap := set2 t.cacheMap T i none }) u).cacheMap y z).isSome := by
  induction ids with
  | nil => intro u h; simpa using h
  | cons x rest ih =>
      intro u h
      simp only [List.foldl_cons]
      by_cases hx : (lookup2 u.cacheMap T x).isSome
      · simp only [hx, if_true]
        exact ih u h
      · simp only [hx, if_false]
        refine ih _ ?_
        show (lookup2 (set2 u.cacheMap T x none) y z).isSome
        rw [lookup2_set2]
        by_cases h1 : T = y
        · subst h1
          by_cases h2 : x = z <;> simp [h2, h]
        · simp [h1, h]

theorem markAbsent_isSome (T : String) (ids : List String) (t : SState) :
    ∀ x ∈ ids, (lookup2 (markAbsent T ids t).cacheMap T x).isSome := by
  unfold markAbsent
  generalize ({ t with cacheMap := ensure t.cacheMap T [] } : SState) = u
  induction ids generalizing u with
  | nil => intro x hx; cases hx
  | cons x0 rest ih =>
      intro x hx
      simp only [List.foldl_cons]
      rcases List.mem_cons.mp hx with hx | hx
      · subst hx
        by_cases h0 : (lookup2 u.cacheMap T x).isSome
        · simp only [h0, if_true]
          exact markFold_preserves T rest T x u h0
        · simp only [h0, if_false]
          refine markFold_preserves T rest T x _ ?_
          simp [lookup2_set2]
      · by_cases h0 : (lookup2 u.cacheMap T x0).isSome
        · simp only [h0, if_true]
          exact ih u x hx
        · simp only [h0, if_false]
          exact ih _ x hx

theorem cacheList_preserves (es : List Entity) (y z : String) :
    ∀ u : SState, (lookup2 u.cacheMap y z).isSome →
    (lookup2 (cacheList es u).cacheMap y z).isSome := by
  induction es with
  | nil => intro u h; simpa [cacheList] using h
  | cons e rest ih =>
      intro u h
      simp only [cacheList, List.foldl_cons] at ih ⊢
      refine ih _ ?_
      simp only [cacheEnt, lookup2_set2]
      by_cases h1 : e.typeName = y
      · subst h1
        by_cases h2 : e.id = z <;> simp [h2, h]
      · simp [h1, h]

theorem find_deferMap (order : List String) (db : Db) (T : String) (ids : List String)
    (rels : Option RelObj) (u : SState) :
    (find order db T ids rels u).2.deferMap = ensure u.deferMap T ⟨[], RelSpec.nil⟩ := by
  simp [find, flush, flushLoop_deferMap, cacheList_deferMap]

theorem find_cacheMap_isSome (order : List String) (db : Db) (T : String)
    (ids : List String) (rels : Option RelObj) (u : SState) (y z : String)
    (h : (lookup2 u.cacheMap y z).isSome) :
    (lookup2 (find order db T ids rels u).2.cacheMap y z).isSome := by
  simp only [find, flush]
  refine cacheList_preserves _ y z _ ?_
  simpa [flushLoop_cacheMap] using h

theorem load_pending (order : List String) (db : Db) (T : String) (s0 : SState)
    (m : List (String × DeferData)) (d : DeferData)
    (hsd : s0.deferMap = m ++ [(T, d)]) (hmT : alookup m T = none) (hids : d.ids ≠ []) :
    (load order db T s0).deferMap = m
    ∧ (load order db T s0).events
        = s0.events ++ flushTrace order s0.insertMap s0.upsertMap (some T)
          ++ [StoreEvent.findCall T d.ids (mergeRelataions d.relations d.relations)]
    ∧ ∀ x ∈ d.ids, (lookup2 (load order db T s0).cacheMap T x).isSome := by
  have hl : alookup s0.deferMap T = some d := by
    rw [hsd, alookup_append_right _ _ _ hmT]
    simp [alookup]
  have heta : ({ s0 with deferMap := s0.deferMap } : SState) = s0 := rfl
  unfold load
  simp only [ensure_of_some _ _ _ _ hl, hl, Option.getD_some, hids, if_false, heta]
  refine ⟨?_, ?_, ?_⟩
  · rw [find_deferMap]
    rw [markAbsent_deferMap, ensure_of_some _ _ _ _ hl, hsd,
      adelete_append_right _ _ _ hmT]
    simp [adelete]
  · rw [find_events]
    rw [markAbsent_events, markAbsent_insertMap, markAbsent_upsertMap]
    have hmr : mergedRelsOf (some d.relations) (markAbsent T d.ids s0) T
        = mergeRelataions d.relations d.relations := by
      simp [mergedRelsOf, markAbsent_deferMap, hl]
    rw [hmr]
  · intro x hx
    refine find_cacheMap_isSome order db T d.ids (some d.relations) _ T x ?_
    exact markAbsent_isSome T d.ids s0 x hx

/-- C4: after `defer` registers N distinct ids of type `T`, none of them
resolved yet, resolving any one handle issues exactly one bulk store query for
`T` — the single `findCall` whose id filter is the full list of the N deferred
ids — and the deferred entry for `T` is empty (deleted) afterwards. -/
theorem C4_defer_batching (order : List String) (db : Db) (T : String) (ids : List String)
    (j : String) (s : SState)
    (hd : alookup s.deferMap T = none)
    (hcn : ∀ x ∈ ids, lookup2 s.cacheMap T x = none)
    (hnd : ids.Nodup) (hne : ids ≠ []) (hj : j ∈ ids) :
    (deferredValueGet order db T j (ids.foldl (fun u x => defer T x none u) s)).2.events
      = s.events ++ flushTrace order s.insertMap s.upsertMap (some T)
        ++ [StoreEvent.findCall T ids RelSpec.nil]
    ∧ ((deferredValueGet order db T j
          (ids.foldl (fun u x => defer T x none u) s)).2.events.filter isQueryEvent
        = s.events.filter isQueryEvent ++ [StoreEvent.findCall T ids RelSpec.nil])
    ∧ alookup (deferredValueGet order db T j
        (ids.foldl (fun u x => defer T x none u) s)).2.deferMap T = none := by
  have hdm := deferFold_deferMap_entry T ids s hd hnd hne
  obtain ⟨hLd, hLe, hLc⟩ := load_pending order db T
    (ids.foldl (fun u x => defer T x none u) s) s.deferMap ⟨ids, RelSpec.nil⟩ hdm hd hne
  rw [deferFold_events, deferFold_insertMap, deferFold_upsertMap,
    show mergeRelataions RelSpec.nil RelSpec.nil = RelSpec.nil from rfl] at hLe
  have hfinal :
      (deferredValueGet order db T j (ids.foldl (fun u x => defer T x none u) s)).2.events
        = (load order db T (ids.foldl (fun u x => defer T x none u) s)).events
      ∧ (deferredValueGet order db T j (ids.foldl (fun u x => defer T x none u) s)).2.deferMap
        = (load order db T (ids.foldl (fun u x => defer T x none u) s)).deferMap := by
    unfold deferredValueGet getById
    dsimp only
    split
    · exact ⟨rfl, rfl⟩
    · exact ⟨rfl, rfl⟩
    · next heq =>
        have hx : lookup2 (load order db T
            (ids.foldl (fun u x => defer T x none u) s)).cacheMap T j = none := by
          simpa [lookup2_ensure] using heq
        exact absurd (hLc j hj) (by simp [hx])
  obtain ⟨hev, hdm2⟩ := hfinal
  refine ⟨?_, ?_, ?_⟩
  · rw [hev, hLe]
  · rw [hev, hLe]
    simp [List.filter_append, flushTrace_filter_query, isQueryEvent]
  · rw [hdm2, hLd]
    exact hd

/-- C4 witness: the batching theorem applied to two deferred ids `x`, `y` of
type `A` registered on the empty state, resolving the handle for `y`. -/
theorem C4_defer_batching_witness :
    (alookup initState.deferMap "A" = none)
    ∧ (∀ x ∈ (["x", "y"] : List String), lookup2 initState.cacheMap "A" x = none)
    ∧ (["x", "y"] : List String).Nodup
    ∧ (["x", "y"] ≠ ([] : List String))
    ∧ ("y" ∈ (["x", "y"] : List String))
    ∧ (deferredValueGet [] (fun _ _ => none) "A" "y"
        ((["x", "y"] : List String).foldl (fun u x => defer "A" x none u) initState)).2.events
      = initState.events ++ flushTrace [] initState.insertMap initState.upsertMap (some "A")
        ++ [StoreEvent.findCall "A" ["x", "y"] RelSpec.nil] := by
  refine ⟨rfl, fun x _ => rfl, by decide, by decide, by decide, ?_⟩
  exact (C4_defer_batching [] (fun _ _ => none) "A" ["x", "y"] "y" initState rfl
    (fun x _ => rfl) (by decide) (by decide) (by decide)).1
theorem lookup2_aset_nil {α : Type} (m : List (String × List (String × α)))
    (name n i : String) :
    lookup2 (aset m name []) n i = if name = n then none else lookup2 m n i := by
  by_cases h : name = n
  · subst h
    simp [lookup2, alookup_aset_self, alookup]
  · simp [lookup2, alookup_aset_ne _ _ _ _ h, h]

theorem bufInv_of_eq (s s' : SState)
    (hi : ∀ n i, lookup2 s'.insertMap n i = lookup2 s.insertMap n i)
    (hu : ∀ n i, lookup2 s'.upsertMap n i = lookup2 s.upsertMap n i)
    (h : BufInv s) : BufInv s' := by
  intro n i hni
  exact h n i ⟨by rw [← hi n i]; exact hni.1, by rw [← hu n i]; exact hni.2⟩

theorem bufInv_clear (s : SState) (name : String) (ev : List StoreEvent) (h : BufInv s) :
    BufInv { s with insertMap := aset s.insertMap name [],
                    upsertMap := aset s.upsertMap name [], events := ev } := by
  intro n i hni
  have h1 : (lookup2 (aset s.insertMap name []) n i).isSome = true := hni.1
  have h2 : (lookup2 (aset s.upsertMap name []) n i).isSome = true := hni.2
  rw [lookup2_aset_nil] at h1 h2
  by_cases hn : name = n
  · simp [hn] at h1
  · simp only [hn, if_false] at h1 h2
    exact h n i ⟨h1, h2⟩

theorem flushLoop_bufInv (l : List String) (st : Option String) (s : SState)
    (h : BufInv s) : BufInv (flushLoop l st s) := by
  induction l generalizing s with
  | nil => exact h
  | cons name rest ih =>
      simp only [flushLoop]
      have hstep := bufInv_clear s name
        (s.events ++ callsFor name s.insertMap s.upsertMap) h
      by_cases hst : st = some name
      · rw [if_pos hst]
        exact hstep
      · rw [if_neg hst]
        exact ih _ hstep

theorem flush_bufInv (order : List String) (st : Option String) (s : SState)
    (h : BufInv s) : BufInv (flush order st s) :=
  flushLoop_bufInv order st s h

theorem find_bufInv (order : List String) (db : Db) (T : String) (ids : List String)
    (rels : Option RelObj) (u : SState) (h : BufInv u) :
    BufInv (find order db T ids rels u).2 := by
  have hi : (find order db T ids rels u).2.insertMap = (flushLoop order (some T) u).insertMap := by
    simp [find, flush, cacheList_insertMap]
  have hu : (find order db T ids rels u).2.upsertMap = (flushLoop order (some T) u).upsertMap := by
    simp [find, flush, cacheList_upsertMap]
  exact bufInv_of_eq _ _ (fun n i => by rw [hi]) (fun n i => by rw [hu])
    (flushLoop_bufInv _ _ _ h)

theorem markAbsent_bufInv (T : String) (ids : List String) (u : SState) (h : BufInv u) :
    BufInv (markAbsent T ids u) :=
  bufInv_of_eq _ _ (fun n i => by rw [markAbsent_insertMap])
    (fun n i => by rw [markAbsent_upsertMap]) h

theorem load_bufInv (order : List String) (db : Db) (T : String) (s : SState)
    (h : BufInv s) : BufInv (load order db T s) := by
  unfold load
  dsimp only
  split
  · exact bufInv_of_eq _ _ (fun n i => rfl) (fun n i => rfl) h
  · refine bufInv_of_eq ((find order db T _ _ (markAbsent T _
      { s with deferMap := ensure s.deferMap T ⟨[], RelSpec.nil⟩ })).2) _
      (fun n i => rfl) (fun n i => rfl) ?_
    refine find_bufInv _ _ _ _ _ _ ?_
    refine markAbsent_bufInv _ _ _ ?_
    exact bufInv_of_eq _ _ (fun n i => rfl) (fun n i => rfl) h

theorem getById_bufInv (order : List String) (db : Db) (T i : String) (s : SState)
    (h : BufInv s) : BufInv (getById order db T i s).2 := by
  have hload := load_bufInv order db T s h
  unfold getById
  dsimp only
  split
  · exact bufInv_of_eq _ _ (fun n i => rfl) (fun n i => rfl) hload
  · exact bufInv_of_eq _ _ (fun n i => rfl) (fun n i => rfl) hload
  · have hflush : BufInv (flush order (some T)
        { load order db T s with cacheMap := ensure (load order db T s).cacheMap T [] }) := by
      refine flush_bufInv _ _ _ ?_
      exact bufInv_of_eq _ _ (fun n i => rfl) (fun n i => rfl) hload
    split
    · exact bufInv_of_eq _ _ (fun n i => rfl) (fun n i => rfl) hflush
    · exact bufInv_of_eq _ _ (fun n i => rfl) (fun n i => rfl) hflush

theorem findBy_bufInv (order : List String) (db : Db) (T : String) (ids : List String)
    (u : SState) (h : BufInv u) : BufInv (findBy order db T ids u).2 := by
  have hb : BufInv (flushLoop order (some T) u) := flushLoop_bufInv _ _ _ h
  have hi : (findBy order db T ids u).2.insertMap = (flushLoop order (some T) u).insertMap := by
    simp [findBy, flush, cacheList_insertMap]
  have hu : (findBy order db T ids u).2.upsertMap = (flushLoop order (some T) u).upsertMap := by
    simp [findBy, flush, cacheList_upsertMap]
  exact bufInv_of_eq _ _ (fun n i => by rw [hi]) (fun n i => by rw [hu]) hb

theorem findOne_bufInv (order : List String) (db : Db) (T : String) (ids : List String)
    (rels : Option RelObj) (u : SState) (h : BufInv u) :
    BufInv (findOne order db T ids rels u).2 := by
  have hb : BufInv (flushLoop order (some T) u) := flushLoop_bufInv _ _ _ h
  unfold findOne
  dsimp only
  split
  · exact bufInv_of_eq _ _ (fun n i => rfl) (fun n i => rfl) hb
  · exact bufInv_of_eq _ _ (fun n i => rfl) (fun n i => rfl) hb

theorem findOneBy_bufInv (order : List String) (db : Db) (T : String) (ids : List String)
    (u : SState) (h : BufInv u) : BufInv (findOneBy order db T ids u).2 := by
  have hb : BufInv (flushLoop order (some T) u) := flushLoop_bufInv _ _ _ h
  unfold findOneBy
  dsimp only
  split
  · exact bufInv_of_eq _ _ (fun n i => rfl) (fun n i => rfl) hb
  · exact bufInv_of_eq _ _ (fun n i => rfl) (fun n i => rfl) hb

theorem countOp_bufInv (order : List String) (T : String) (u : SState) (h : BufInv u) :
    BufInv (countOp order T u) :=
  bufInv_of_eq _ _ (fun n i => rfl) (fun n i => rfl) (flushLoop_bufInv order (some T) u h)

theorem countByOp_bufInv (order : List String) (T : String) (ids : List String)
    (u : SState) (h : BufInv u) : BufInv (countByOp order T ids u) :=
  bufInv_of_eq _ _ (fun n i => rfl) (fun n i => rfl) (flushLoop_bufInv order (some T) u h)

theorem defer_bufInv (T i : String) (r : Option RelObj) (s : SState) (h : BufInv s) :
    BufInv (defer T i r s) :=
  bufInv_of_eq _ _ (fun n i => rfl) (fun n i => rfl) h

theorem bufInv_upsertAdd (s : SState) (name : String) (e : Entity)
    (hni : ¬(lookup2 s.insertMap name e.id).isSome = true) (h : BufInv s) :
    BufInv { s with upsertMap := set2 s.upsertMap name e.id e } := by
  intro n i hpair
  have h1 : (lookup2 s.insertMap n i).isSome = true := hpair.1
  have h2 : (lookup2 (set2 s.upsertMap name e.id e) n i).isSome = true := hpair.2
  rw [lookup2_set2] at h2
  by_cases hn : name = n
  · subst hn
    by_cases hi : e.id = i
    · subst hi
      exact hni h1
    · simp only [hi, if_false, eq_self_iff_true, if_true] at h2
      exact h name i ⟨h1, h2⟩
  · simp only [hn, if_false] at h2
    exact h n i ⟨h1, h2⟩

theorem bufInv_insertAdd (s : SState) (name : String) (e : Entity)
    (hnu : ¬(lookup2 s.upsertMap name e.id).isSome = true) (h : BufInv s) :
    BufInv { s with insertMap := set2 s.insertMap name e.id e } := by
  intro n i hpair
  have h1 : (lookup2 (set2 s.insertMap name e.id e) n i).isSome = true := hpair.1
  have h2 : (lookup2 s.upsertMap n i).isSome = true := hpair.2
  rw [lookup2_set2] at h1
  by_cases hn : name = n
  · subst hn
    by_cases hi : e.id = i
    · subst hi
      exact hnu h2
    · simp only [hi, if_false, eq_self_iff_true, if_true] at h1
      exact h name i ⟨h1, h2⟩
  · simp only [hn, if_false] at h1
    exact h n i ⟨h1, h2⟩

theorem upsertLoop_bufInv (name : String) (es : List Entity) :
    ∀ s : SState, BufInv s → BufInv (upsertLoop name es s) := by
  induction es with
  | nil => intro s h; exact h
  | cons e rest ih =>
      intro s h
      simp only [upsertLoop]
      by_cases hc : (lookup2 (cacheEnt e s).insertMap name e.id).isSome = true
      · simp only [hc, if_true]
        refine ih _ ?_
        exact bufInv_of_eq _ _ (fun n i => rfl) (fun n i => rfl) h
      · simp only [hc, if_false]
        refine ih _ ?_
        have hce : BufInv (cacheEnt e s) :=
          bufInv_of_eq _ _ (fun n i => rfl) (fun n i => rfl) h
        exact bufInv_upsertAdd (cacheEnt e s) name e hc hce

theorem insertLoop_bufInv (name : String) (es : List Entity) :
    ∀ s s' : SState, BufInv s → insertLoop name es s = some s' → BufInv s' := by
  induction es with
  | nil =>
      intro s s' h hrun
      simp only [insertLoop, Option.some.injEq] at hrun
      exact hrun ▸ h
  | cons e rest ih =>
      intro s s' h hrun
      simp only [insertLoop] at hrun
      by_cases h1 : (lookup2 s.insertMap name e.id).isSome = true
      · rw [if_pos h1] at hrun; cases hrun
      · rw [if_neg h1] at hrun
        by_cases h2 : (lookup2 s.upsertMap name e.id).isSome = true
        · rw [if_pos h2] at hrun; cases hrun
        · rw [if_neg h2] at hrun
          have hce : BufInv (cacheEnt e s) :=
            bufInv_of_eq _ _ (fun n i => rfl) (fun n i => rfl) h
          have hnu : ¬(lookup2 (cacheEnt e s).upsertMap name e.id).isSome = true := h2
          have hinv2 : BufInv
              { cacheEnt e s with insertMap := set2 (cacheEnt e s).insertMap name e.id e } :=
            bufInv_insertAdd (cacheEnt e s) name e hnu hce
          rcases hcache : lookup2 s.cacheMap name e.id with _ | v
          · rw [hcache] at hrun
            exact ih _ _ hinv2 hrun
          · cases v with
            | none =>
                rw [hcache] at hrun
                exact ih _ _ hinv2 hrun
            | some w =>
                rw [hcache] at hrun
                simp at hrun

theorem upsert_bufInv (es : List Entity) (s : SState) (h : BufInv s) :
    BufInv (upsert es s) := by
  cases es with
  | nil => exact h
  | cons e rest =>
      unfold upsert
      refine upsertLoop_bufInv _ _ _ ?_
      exact bufInv_of_eq _ _ (fun n i => by simp [lookup2_ensure])
        (fun n i => by simp [lookup2_ensure]) h

theorem insertWC_bufInv (es : List Entity) (s s' : SState) (h : BufInv s)
    (hrun : insertWC es s = some s') : BufInv s' := by
  cases es with
  | nil =>
      simp only [insertWC, Option.some.injEq] at hrun
      exact hrun ▸ h
  | cons e rest =>
      unfold insertWC at hrun
      refine insertLoop_bufInv _ _ _ _ ?_ hrun
      exact bufInv_of_eq _ _ (fun n i => by simp [lookup2_ensure])
        (fun n i => by simp [lookup2_ensure]) h

theorem runOp_bufInv (order : List String) (db : Db) (op : Op) (s s' : SState)
    (h : BufInv s) (hrun : runOp order db op s = some s') : BufInv s' := by
  cases op with
  | insertOp es => exact insertWC_bufInv es s s' h hrun
  | upsertOp es =>
      simp only [runOp, Option.some.injEq] at hrun
      exact hrun ▸ upsert_bufInv es s h
  | saveOp es =>
      simp only [runOp, Option.some.injEq] at hrun
      exact hrun ▸ upsert_bufInv es s h
  | deferOp n i r =>
      simp only [runOp, Option.some.injEq] at hrun
      exact hrun ▸ defer_bufInv n i r s h
  | getOp n i =>
      simp only [runOp, Option.some.injEq] at hrun
      exact hrun ▸ getById_bufInv order db n i s h
  | findOp n ids r =>
      simp only [runOp, Option.some.injEq] at hrun
      exact hrun ▸ find_bufInv order db n ids r s h
  | findByOp n ids =>
      simp only [runOp, Option.some.injEq] at hrun
      exact hrun ▸ findBy_bufInv order db n ids s h
  | findOneOp n ids r =>
      simp only [runOp, Option.some.injEq] at hrun
      exact hrun ▸ findOne_bufInv order db n ids r s h
  | findOneByOp n ids =>
      simp only [runOp, Option.some.injEq] at hrun
      exact hrun ▸ findOneBy_bufInv order db n ids s h
  | countOperation n =>
      simp only [runOp, Option.some.injEq] at hrun
      exact hrun ▸ countOp_bufInv order n s h
  | countByOperation n ids =>
      simp only [runOp, Option.some.injEq] at hrun
      exact hrun ▸ countByOp_bufInv order n ids s h
  | flushOp st =>
      simp only [runOp, Option.some.injEq] at hrun
      exact hrun ▸ flush_bufInv order st s h

theorem runList_bufInv (order : List String) (db : Db) (ops : List Op) :
    ∀ s s' : SState, BufInv s → runList order db ops s = some s' → BufInv s' := by
  induction ops with
  | nil =>
      intro s s' h hrun
      simp only [runList, Option.some.injEq] at hrun
      exact hrun ▸ h
  | cons op rest ih =>
      intro s s' h hrun
      simp only [runList] at hrun
      cases hstep : runOp order db op s with
      | none => rw [hstep] at hrun; cases hrun
      | some s1 =>
          rw [hstep] at hrun
          exact ih s1 s' (runOp_bufInv order db op s s1 h hstep) hrun

/-- C7: after any sequence of insert, upsert, save, defer, read and flush
operations that completes without a failed assertion, no id is pending in
both the insert buffer and the upsert buffer of its type; moreover `upsert`
of an id already pending in the insert buffer leaves the whole upsert buffer
unchanged (the pending insert wins). -/
theorem C7_buffer_exclusion (order : List String) (db : Db) (ops : List Op) (s s' : SState)
    (hinv : BufInv s) (hrun : runList order db ops s = some s') :
    BufInv s'
    ∧ ∀ (t : SState) (e : Entity), (lookup2 t.insertMap e.typeName e.id).isSome →
        ∀ n k, lookup2 (upsert [e] t).upsertMap n k = lookup2 t.upsertMap n k := by
  refine ⟨runList_bufInv order db ops s s' hinv hrun, ?_⟩
  intro t e he n k
  rw [upsert_single_eq, if_pos he]
  simp [lookup2_ensure]

/-- C7 witness: the invariant theorem applied to a concrete operation
sequence (insert, coalescing upsert, defer, read, flush, upsert) run from the
empty state. -/
theorem C7_buffer_exclusion_witness :
    BufInv initState
    ∧ (runList ["A"] (fun _ _ => none)
        [Op.insertOp [⟨"A", "x", 1⟩], Op.upsertOp [⟨"A", "x", 2⟩],
         Op.deferOp "A" "y" none, Op.getOp "A" "y", Op.flushOp none,
         Op.upsertOp [⟨"A", "z", 5⟩]] initState
       = some ((runList ["A"] (fun _ _ => none)
          [Op.insertOp [⟨"A", "x", 1⟩], Op.upsertOp [⟨"A", "x", 2⟩],
           Op.deferOp "A" "y" none, Op.getOp "A" "y", Op.flushOp none,
           Op.upsertOp [⟨"A", "z", 5⟩]] initState).getD initState))
    ∧ BufInv ((runList ["A"] (fun _ _ => none)
        [Op.insertOp [⟨"A", "x", 1⟩], Op.upsertOp [⟨"A", "x", 2⟩],
         Op.deferOp "A" "y" none, Op.getOp "A" "y", Op.flushOp none,
         Op.upsertOp [⟨"A", "z", 5⟩]] initState).getD initState) := by
  have hinv : BufInv initState := by
    intro n i h
    exact absurd h.1 (by simp [lookup2, alookup, initState])
  refine ⟨hinv, rfl, ?_⟩
  exact (C7_buffer_exclusion ["A"] (fun _ _ => none)
    [Op.insertOp [⟨"A", "x", 1⟩], Op.upsertOp [⟨"A", "x", 2⟩],
     Op.deferOp "A" "y" none, Op.getOp "A" "y", Op.flushOp none,
     Op.upsertOp [⟨"A", "z", 5⟩]] initState _ hinv rfl).1
/-- Buffers cleared for every name of a list, as the flush loop leaves them. -/
def clearAll (l : List String) (m : BufMap) : BufMap :=
  l.foldl (fun acc n => aset acc n []) m

theorem flushTrace_append (l₁ l₂ : List String) (im um : BufMap) :
    flushTrace (l₁ ++ l₂) im um none
      = flushTrace l₁ im um none ++ flushTrace l₂ (clearAll l₁ im) (clearAll l₁ um) none := by
  induction l₁ generalizing im um with
  | nil => rfl
  | cons n rest ih =>
      simp only [List.cons_append, flushTrace, clearAll, List.foldl_cons]
      have hn : ¬((none : Option String) = some n) := by simp
      simp only [hn, if_false]
      rw [show rest.append l₂ = rest ++ l₂ from rfl, ih]
      simp [clearAll, List.append_assoc]

theorem readL_clearAll (l : List String) (m : BufMap) (A : String) (h : A ∉ l) :
    readL (clearAll l m) A = readL m A := by
  induction l generalizing m with
  | nil => rfl
  | cons n rest ih =>
      have hn : n ≠ A := fun hc => h (hc ▸ List.mem_cons_self n rest)
      have hr : A ∉ rest := fun hc => h (List.mem_cons_of_mem n hc)
      simp only [clearAll, List.foldl_cons]
      rw [show List.foldl (fun acc n => aset acc n []) (aset m n []) rest
        = clearAll rest (aset m n []) from rfl]
      rw [ih _ hr, readL_aset_ne _ _ _ _ hn]

theorem mem_split_first {a : String} {l : List String} (h : a ∈ l) :
    ∃ s t, l = s ++ a :: t ∧ a ∉ s := by
  induction l with
  | nil => cases h
  | cons x rest ih =>
      by_cases hx : x = a
      · exact ⟨[], rest, by simp [hx], by simp⟩
      · rcases List.mem_cons.mp h with h1 | h1
        · exact absurd h1.symm hx
        · obtain ⟨s, t, hst, hns⟩ := ih h1
          refine ⟨x :: s, t, by rw [List.cons_append, hst], ?_⟩
          intro hmem
          rcases List.mem_cons.mp hmem with h2 | h2
          · exact hx h2.symm
          · exact hns h2

theorem callsFor_nonempty (name : String) (im um : BufMap) (h : ¬(readL im name = [])) :
    callsFor name im um
      = StoreEvent.insertCall name ((readL im name).map Prod.snd)
        :: (if readL um name = [] then []
            else [StoreEvent.upsertCall name ((readL um name).map Prod.snd)]) := by
  simp [callsFor, h]

theorem flushTrace_cons_none (name : String) (rest : List String) (im um : BufMap) :
    flushTrace (name :: rest) im um none
      = callsFor name im um ++ flushTrace rest (aset im name []) (aset um name []) none := by
  simp [flushTrace]

/-- C1: whenever type `A` has a foreign key to type `B` and both types have
pending inserts buffered, a `flush` walking the reverse topological order of
the foreign-key graph issues the bulk insert call for `B` strictly before the
bulk insert call for `A`. -/
theorem C1_flush_fk_order (schema : List (String × List String)) (order : List String)
    (A B : String) (s : SState)
    (hrt : isRevTopoOrder schema order) (hfk : FK schema A B)
    (hA : readL s.insertMap A ≠ []) (hB : readL s.insertMap B ≠ []) :
    ∃ pre mid post,
      (flush order none s).events
        = s.events ++ pre
          ++ StoreEvent.insertCall B ((readL s.insertMap B).map Prod.snd)
            :: mid ++ StoreEvent.insertCall A ((readL s.insertMap A).map Prod.snd) :: post := by
  obtain ⟨l₁, l₂, horder, hAmem⟩ := hrt.2.2 A B hfk
  have hnd : (l₁ ++ B :: l₂).Nodup := horder ▸ hrt.1
  obtain ⟨hndl₁, hndBl₂, hdisj⟩ := List.nodup_append.mp hnd
  have hBl₁ : B ∉ l₁ := fun hc => hdisj hc (List.mem_cons_self B l₂)
  have hAl₁ : A ∉ l₁ := fun hc => hdisj hc (List.mem_cons_of_mem B hAmem)
  have hAB : A ≠ B := by
    intro hc
    subst hc
    exact (List.nodup_cons.mp hndBl₂).1 hAmem
  obtain ⟨m₁, m₂, hl₂, hAm₁⟩ := mem_split_first hAmem
  have hreadB : readL (clearAll l₁ s.insertMap) B = readL s.insertMap B :=
    readL_clearAll l₁ _ B hBl₁
  have hreadA : readL (clearAll m₁ (aset (clearAll l₁ s.insertMap) B [])) A
      = readL s.insertMap A := by
    rw [readL_clearAll m₁ _ A hAm₁, readL_aset_ne _ _ _ _ (Ne.symm hAB),
      readL_clearAll l₁ _ A hAl₁]
  have hB1 : ¬(readL (clearAll l₁ s.insertMap) B = []) := by
    rw [hreadB]
    exact hB
  have hA1 : ¬(readL (clearAll m₁ (aset (clearAll l₁ s.insertMap) B [])) A = []) := by
    rw [hreadA]
    exact hA
  refine ⟨flushTrace l₁ s.insertMap s.upsertMap none,
    (if readL (clearAll l₁ s.upsertMap) B = [] then []
     else [StoreEvent.upsertCall B ((readL (clearAll l₁ s.upsertMap) B).map Prod.snd)])
    ++ flushTrace m₁ (aset (clearAll l₁ s.insertMap) B [])
        (aset (clearAll l₁ s.upsertMap) B []) none,
    (if readL (clearAll m₁ (aset (clearAll l₁ s.upsertMap) B [])) A = [] then []
     else [StoreEvent.upsertCall A
       ((readL (clearAll m₁ (aset (clearAll l₁ s.upsertMap) B [])) A).map Prod.snd)])
    ++ flushTrace m₂
        (aset (clearAll m₁ (aset (clearAll l₁ s.insertMap) B [])) A [])
        (aset (clearAll m₁ (aset (clearAll l₁ s.upsertMap) B [])) A []) none, ?_⟩
  rw [flush, flushLoop_events]
  rw [horder, flushTrace_append, flushTrace_cons_none]
  rw [callsFor_nonempty B _ _ hB1, hreadB]
  rw [hl₂, flushTrace_append, flushTrace_cons_none]
  rw [callsFor_nonempty A _ _ hA1, hreadA]
  simp [List.append_assoc]

/-- C1 witness: the foreign-key ordering theorem applied to the concrete
schema where `Transfer` references `Account`, with reverse topological order
`[Account, Transfer]` and one pending insert of each type. -/
theorem C1_flush_fk_order_witness :
    let s₀ : SState :=
      { deferMap := [], cacheMap := [], classes := [],
        insertMap := [("Transfer", [("t1", ⟨"Transfer", "t1", 7⟩)]),
                      ("Account", [("a1", ⟨"Account", "a1", 1⟩)])],
        upsertMap := [], events := [] }
    isRevTopoOrder [("Transfer", ["Account"])] ["Account", "Transfer"]
    ∧ FK [("Transfer", ["Account"])] "Transfer" "Account"
    ∧ readL s₀.insertMap "Transfer" ≠ []
    ∧ readL s₀.insertMap "Account" ≠ []
    ∧ ∃ pre mid post,
        (flush ["Account", "Transfer"] none s₀).events
          = s₀.events ++ pre
            ++ StoreEvent.insertCall "Account" ((readL s₀.insertMap "Account").map Prod.snd)
              :: mid ++ StoreEvent.insertCall "Transfer"
                ((readL s₀.insertMap "Transfer").map Prod.snd) :: post := by
  intro s₀
  have hrt : isRevTopoOrder [("Transfer", ["Account"])] ["Account", "Transfer"] := by
    refine ⟨by decide, by decide, ?_⟩
    intro A B hfk
    obtain ⟨fks, hmem, hBf⟩ := hfk
    rw [List.mem_singleton] at hmem
    injection hmem with hA hf
    subst hA
    subst hf
    rw [List.mem_singleton] at hBf
    subst hBf
    exact ⟨[], ["Transfer"], rfl, by simp⟩
  have hfk : FK [("Transfer", ["Account"])] "Transfer" "Account" :=
    ⟨["Account"], by simp, by simp⟩
  refine ⟨hrt, hfk, by decide, by decide, ?_⟩
  exact C1_flush_fk_order [("Transfer", ["Account"])] ["Account", "Transfer"]
    "Transfer" "Account" s₀ hrt hfk (by decide) (by decide)
